import Mathlib

/-!
Verification of the shadecaster core pipeline (image → polar occupancy mask →
triangle mesh → STL bytes) against its natural-language specification.

Modelling conventions.

JavaScript numbers are IEEE-754 doubles; every double is a rational number, and
the source performs only field arithmetic, `Math.floor`, `Math.round`,
`Math.abs`, `Math.min`, `Math.max`, `%` and comparisons on them, plus
`Math.cos`, `Math.sin`, `Math.sqrt` and `Math.PI`.  We embed numbers as exact
fractions (`Frac`, an integer numerator over a natural denominator, kept
unnormalized so that all operations are kernel-computable) and keep the
transcendental functions symbolic: `Math.PI` is embedded as the exact rational
value of the float64 constant 3.141592653589793 (884279719003555 / 2^48), and
`Math.cos` / `Math.sin` / `Math.sqrt` are passed as explicit function
parameters wherever the source applies them to data, so that theorems can
instantiate them with `Real.cos`, `Real.sin`, `Real.sqrt`.

Mesh vertices are kept in the polar form in which the source constructs them
(`polarToCartesian radius (j * angleStep) z`): a vertex is a radius
expression, an angle index j (reduced modulo the column count: the float
pipeline maps the index `columns` to the same quantized cartesian point as
index 0 via `normalizeZero`), and a height.  Radii are either exact rationals
or the cosine interpolation expressions of the dome profile.  Coincidence of
produced vertices under the 1e-5 quantization used by the repository mesh
inspection tool is modelled as exact-value coincidence of these polar
descriptions; a separate interpretation of vertices into real cartesian
coordinates, together with a proved injectivity bridge, justifies the
identification for the concrete meshes on which manifoldness is decided.
-/

set_option maxRecDepth 1000000
set_option maxHeartbeats 10000000

namespace Shade

/-- Exact rational embedding of a JS number: numerator over a natural
denominator.  Fractions are not kept normalized (normalization happens only
at vertex-key construction), so all arithmetic is plain integer arithmetic
and reduces inside the Lean kernel. -/
structure Frac where
  n : Int
  d : Nat
deriving DecidableEq

namespace Frac

/-- Embed an integer. -/
def ofInt (i : Int) : Frac := ⟨i, 1⟩

/-- Embed a natural number. -/
def ofNat (m : Nat) : Frac := ⟨(m : Int), 1⟩

def add (a b : Frac) : Frac := ⟨a.n * (b.d : Int) + b.n * (a.d : Int), a.d * b.d⟩

def sub (a b : Frac) : Frac := ⟨a.n * (b.d : Int) - b.n * (a.d : Int), a.d * b.d⟩

def mul (a b : Frac) : Frac := ⟨a.n * b.n, a.d * b.d⟩

def neg (a : Frac) : Frac := ⟨-a.n, a.d⟩

/-- Division; the divisor sign is moved into the numerator so the denominator
stays a natural number.  Division by a zero value yields a denominator-zero
fraction, which never happens on the guarded paths of the source. -/
def div (a b : Frac) : Frac :=
  if b.n < 0 then ⟨-(a.n * (b.d : Int)), a.d * b.n.natAbs⟩
  else ⟨a.n * (b.d : Int), a.d * b.n.natAbs⟩

/-- Value-level strict order, by cross multiplication (denominators are kept
nonnegative by construction). -/
def lt (a b : Frac) : Prop := a.n * (b.d : Int) < b.n * (a.d : Int)

/-- Value-level order, by cross multiplication. -/
def le (a b : Frac) : Prop := a.n * (b.d : Int) ≤ b.n * (a.d : Int)

instance (a b : Frac) : Decidable (lt a b) := by unfold lt; infer_instance

instance (a b : Frac) : Decidable (le a b) := by unfold le; infer_instance

/-- Model of `Math.abs`. -/
def abs (a : Frac) : Frac := if a.n < 0 then ⟨-a.n, a.d⟩ else a

/-- Model of `Math.min` (returns one of its arguments, like JS). -/
def fmin (a b : Frac) : Frac := if lt b a then b else a

/-- Model of `Math.max`. -/
def fmax (a b : Frac) : Frac := if lt a b then b else a

/-- Model of `Math.floor`, as an integer. -/
def floor (a : Frac) : Int := a.n.fdiv (a.d : Int)

/-- Model of `Math.round`: the ECMAScript rounding is floor of x + 1/2. -/
def round (a : Frac) : Int := floor (add a ⟨1, 2⟩)

/-- Model of the JS `%` operator for a positive right operand and nonnegative
left operand (the only use in the source is `(angle + 2π) % (2π)`). -/
def jsMod (a b : Frac) : Frac := sub a (mul b (ofInt (floor (div a b))))

/-- Value equality of fractions (cross multiplication). -/
def veq (a b : Frac) : Prop := a.n * (b.d : Int) = b.n * (a.d : Int)

instance (a b : Frac) : Decidable (veq a b) := by unfold veq; infer_instance

/-- Normalization by the gcd, with a canonical zero.  Used when building
vertex keys so that value-equal coordinates get structurally equal keys. -/
def norm (a : Frac) : Frac :=
  if a.n = 0 then ⟨0, 1⟩
  else
    let g := Nat.gcd a.n.natAbs a.d
    ⟨a.n / (g : Int), a.d / g⟩

/-- Interpretation of a fraction as a rational number. -/
def toRat (a : Frac) : ℚ := (a.n : ℚ) / (a.d : ℚ)

theorem toRat_lt {a b : Frac} (ha : 0 < a.d) (hb : 0 < b.d) :
    lt a b ↔ toRat a < toRat b := by
  unfold lt toRat
  rw [div_lt_div_iff₀ (by exact_mod_cast ha) (by exact_mod_cast hb)]
  constructor
  · intro h; exact_mod_cast h
  · intro h; exact_mod_cast h

theorem toRat_le {a b : Frac} (ha : 0 < a.d) (hb : 0 < b.d) :
    le a b ↔ toRat a ≤ toRat b := by
  unfold le toRat
  rw [div_le_div_iff₀ (by exact_mod_cast ha) (by exact_mod_cast hb)]
  constructor
  · intro h; exact_mod_cast h
  · intro h; exact_mod_cast h

theorem lt_le_trans {a b c : Frac} (ha : 0 < a.d) (hb : 0 < b.d) (hc : 0 < c.d)
    (h1 : lt a b) (h2 : le b c) : lt a c := by
  rw [toRat_lt ha hb] at h1
  rw [toRat_le hb hc] at h2
  rw [toRat_lt ha hc]
  exact lt_of_lt_of_le h1 h2

end Frac

/-- The exact rational value of the IEEE-754 double `Math.PI`
(3.141592653589793, equal to 884279719003555 / 2^48). -/
def piF : Frac := ⟨884279719003555, 281474976710656⟩

/-!
Tail-recursive list helpers.

The manifold check of the repository inspection tool counts, for every
distinct mesh edge, how many triangles reference it.  To make those counts
kernel-computable on thousand-element lists, all list traversals below are
tail recursive (accumulator style) and force their numeric accumulators at
every step; their relation to `List.count` is proved once and for all.
-/

/-- Strict tail-recursive occurrence count. -/
def scount (k : Nat) : Nat → List Nat → Nat
  | acc, [] => acc
  | acc, x :: xs =>
    let a := if x = k then acc + 1 else acc
    if a + 1 = 0 then 0 else scount k a xs

theorem scount_eq (k : Nat) : ∀ (acc : Nat) (l : List Nat),
    scount k acc l = acc + l.count k := by
  intro acc l
  induction l generalizing acc with
  | nil => simp [scount]
  | cons x xs ih =>
    simp only [scount, Nat.succ_ne_zero, if_false, ih, List.count_cons]
    by_cases h : x = k
    · simp [h, Nat.add_assoc, Nat.add_comm 1]
    · simp [h, beq_iff_eq]

/-- Strict tail-recursive length. -/
def tlen {α : Type} : Nat → List α → Nat
  | acc, [] => acc
  | acc, _ :: xs => if acc + 1 = 0 then 0 else tlen (acc + 1) xs

/-- Tail-recursive merge of two lists by a boolean comparator, with fuel. -/
def tmerge {α : Type} (le : α → α → Bool) : Nat → List α → List α → List α → List α
  | 0, acc, a, b => acc.reverse ++ a ++ b
  | _ + 1, acc, [], b => acc.reverse ++ b
  | _ + 1, acc, a, [] => acc.reverse ++ a
  | fuel + 1, acc, x :: xs, y :: ys =>
    if le x y then tmerge le fuel (x :: acc) xs (y :: ys)
    else tmerge le fuel (y :: acc) (x :: xs) ys

theorem tmerge_count {α : Type} [DecidableEq α] (le : α → α → Bool) (k : α) :
    ∀ (fuel : Nat) (acc a b : List α),
    (tmerge le fuel acc a b).count k = acc.count k + a.count k + b.count k := by
  intro fuel
  induction fuel with
  | zero => intro acc a b; simp [tmerge]; omega
  | succ fuel ih =>
    intro acc a b
    match a, b with
    | [], b => simp [tmerge]
    | x :: xs, [] => simp [tmerge]
    | x :: xs, y :: ys =>
      simp only [tmerge]
      by_cases h : le x y = true
      · rw [if_pos h, ih]
        simp [List.count_cons]
        ring
      · rw [if_neg h, ih]
        simp [List.count_cons]
        ring

/-- Tail-recursive alternating split. -/
def tsplit {α : Type} : List α → List α → List α → Bool → List α × List α
  | [], a, b, _ => (a, b)
  | x :: xs, a, b, flag =>
    if flag then tsplit xs (x :: a) b false else tsplit xs a (x :: b) true

theorem tsplit_count {α : Type} [DecidableEq α] (k : α) :
    ∀ (l a b : List α) (flag : Bool),
    (tsplit l a b flag).1.count k + (tsplit l a b flag).2.count k
      = l.count k + a.count k + b.count k := by
  intro l
  induction l with
  | nil => intro a b flag; simp [tsplit]
  | cons x xs ih =>
    intro a b flag
    simp only [tsplit]
    by_cases h : flag = true
    · rw [if_pos h, ih]
      simp [List.count_cons]
      ring
    · rw [if_neg h, ih]
      simp [List.count_cons]
      ring

/-- Tail-guided merge sort with fuel; only its count-preservation matters for
soundness, the ordering only makes the duplicate-grouping check succeed. -/
def tsort {α : Type} (le : α → α → Bool) : Nat → List α → List α
  | 0, l => l
  | _ + 1, [] => []
  | _ + 1, [x] => [x]
  | fuel + 1, l =>
    let p := tsplit l [] [] true
    tmerge le (tlen 0 l) [] (tsort le fuel p.1) (tsort le fuel p.2)

theorem tsort_count {α : Type} [DecidableEq α] (le : α → α → Bool) (k : α) :
    ∀ (fuel : Nat) (l : List α),
    (tsort le fuel l).count k = l.count k := by
  intro fuel
  induction fuel with
  | zero => intro l; rfl
  | succ fuel ih =>
    intro l
    match l with
    | [] => rfl
    | [x] => rfl
    | x :: y :: t =>
      show (tmerge le _ [] (tsort le fuel (tsplit (x :: y :: t) [] [] true).1)
        (tsort le fuel (tsplit (x :: y :: t) [] [] true).2)).count k = _
      rw [tmerge_count, ih, ih, List.count_nil]
      have := tsplit_count k (x :: y :: t) [] [] true
      simp only [List.count_nil, Nat.add_zero] at this
      omega

theorem tsort_mem {α : Type} [DecidableEq α] {le : α → α → Bool} {k : α} {fuel : Nat}
    {l : List α} : k ∈ tsort le fuel l ↔ k ∈ l := by
  rw [← List.count_pos_iff, ← List.count_pos_iff, tsort_count]

/-- Collapse a list of even run length 2: returns the run heads when the list
is a concatenation of adjacent equal pairs. -/
def pairHeads : List Nat → List Nat → Option (List Nat)
  | acc, [] => some acc.reverse
  | _, [_] => none
  | acc, x :: y :: t => if x = y then pairHeads (x :: acc) t else none

theorem pairHeads_count (k : Nat) : ∀ (n : Nat) (l acc hs : List Nat), l.length ≤ n →
    pairHeads acc l = some hs → 2 * hs.count k = 2 * acc.count k + l.count k := by
  intro n
  induction n with
  | zero =>
    intro l acc hs hlen h
    match l with
    | [] =>
      simp only [pairHeads, Option.some.injEq] at h
      subst h
      simp
    | x :: t => simp at hlen
  | succ n ih =>
    intro l acc hs hlen h
    match l with
    | [] =>
      simp only [pairHeads, Option.some.injEq] at h
      subst h
      simp
    | [x] => simp [pairHeads] at h
    | x :: y :: t =>
      simp only [pairHeads] at h
      by_cases hxy : x = y
      · rw [if_pos hxy] at h
        have ht : t.length ≤ n := by simp at hlen; omega
        have := ih t (x :: acc) hs ht h
        subst hxy
        simp only [List.count_cons] at this ⊢
        omega
      · rw [if_neg hxy] at h
        exact absurd h (by simp)

/-- Tail-recursive strict-chain check; a strictly increasing list has no
duplicates. -/
def chainLt : List Nat → Bool
  | [] => true
  | [_] => true
  | x :: y :: t => if x < y then chainLt (y :: t) else false

theorem chainLt_chain' : ∀ (l : List Nat), chainLt l = true → l.Chain' (· < ·) := by
  intro l
  induction l with
  | nil => intro; exact List.chain'_nil
  | cons x xs ih =>
    intro h
    match xs, h with
    | [], _ => simp
    | y :: t, h =>
      simp only [chainLt] at h
      by_cases hxy : x < y
      · rw [if_pos hxy] at h
        exact List.Chain'.cons hxy (ih h)
      · rw [if_neg hxy] at h
        exact absurd h (by simp)

theorem chainLt_nodup {l : List Nat} (h : chainLt l = true) : l.Nodup := by
  have hp : l.Pairwise (· < ·) := List.chain'_iff_pairwise.mp (chainLt_chain' l h)
  exact hp.imp Nat.ne_of_lt

/-- The duplicate histogram check of the inspection tool: sort the edge codes,
require them to fall into runs of exactly two, with strictly increasing run
heads.  Soundness: every element of the list then occurs exactly twice. -/
def countsAllTwo (es : List Nat) : Bool :=
  match pairHeads [] (tsort (fun x y => decide (x ≤ y)) (tlen 0 es) es) with
  | none => false
  | some hs => chainLt hs

theorem countsAllTwo_sound {es : List Nat} (h : countsAllTwo es = true) :
    ∀ e ∈ es, es.count e = 2 := by
  intro e he
  unfold countsAllTwo at h
  cases hp : pairHeads [] (tsort (fun x y => decide (x ≤ y)) (tlen 0 es) es) with
  | none => rw [hp] at h; exact absurd h (by simp)
  | some hs =>
    rw [hp] at h
    have hcnt := pairHeads_count e
      (tsort (fun x y => decide (x ≤ y)) (tlen 0 es) es).length
      (tsort (fun x y => decide (x ≤ y)) (tlen 0 es) es) [] hs (le_refl _) hp
    simp only [List.count_nil, Nat.mul_zero, Nat.zero_add] at hcnt
    rw [tsort_count] at hcnt
    have hmem : e ∈ tsort (fun x y => decide (x ≤ y)) (tlen 0 es) es := tsort_mem.mpr he
    have hpos : 0 < es.count e := List.count_pos_iff.mpr he
    have hhs : 0 < hs.count e := by omega
    have hnd : hs.Nodup := chainLt_nodup h
    have hone : hs.count e = 1 := by
      have hle := List.nodup_iff_count_le_one.mp hnd e
      omega
    omega

/-- Tail-recursive removal of adjacent duplicates (applied to sorted key
lists to obtain the distinct vertex keys). -/
def dedupAdj {α : Type} [DecidableEq α] : List α → List α → List α
  | acc, [] => acc.reverse
  | acc, x :: xs =>
    match xs with
    | [] => (x :: acc).reverse
    | y :: _ => if x = y then dedupAdj acc xs else dedupAdj (x :: acc) xs

theorem dedupAdj_cons_cons {α : Type} [DecidableEq α] (acc : List α) (x y : α)
    (t : List α) : dedupAdj acc (x :: y :: t)
      = if x = y then dedupAdj acc (y :: t) else dedupAdj (x :: acc) (y :: t) := rfl

theorem dedupAdj_mem {α : Type} [DecidableEq α] (k : α) :
    ∀ (l acc : List α), k ∈ dedupAdj acc l ↔ k ∈ acc ∨ k ∈ l := by
  intro l
  induction l with
  | nil => intro acc; simp [dedupAdj]
  | cons x xs ih =>
    intro acc
    match xs, ih with
    | [], _ => simp [dedupAdj, Or.comm]
    | y :: t, ih =>
      rw [dedupAdj_cons_cons]
      by_cases hxy : x = y
      · rw [if_pos hxy, ih]
        subst hxy
        simp only [List.mem_cons]
        tauto
      · rw [if_neg hxy, ih]
        simp only [List.mem_cons]
        tauto

/-- Tail-recursive check that a predicate holds of one element against a
list. -/
def allWith {α : Type} (p : α → α → Bool) (x : α) : List α → Bool
  | [] => true
  | y :: ys => if p x y then allWith p x ys else false

theorem allWith_sound {α : Type} {p : α → α → Bool} {x : α} :
    ∀ {l : List α}, allWith p x l = true → ∀ y ∈ l, p x y = true := by
  intro l
  induction l with
  | nil => intro _ y hy; simp at hy
  | cons z zs ih =>
    intro h y hy
    simp only [allWith] at h
    by_cases hz : p x z = true
    · rw [if_pos hz] at h
      rcases List.mem_cons.mp hy with h1 | h2
      · subst h1; exact hz
      · exact ih h y h2
    · rw [if_neg hz] at h
      exact absurd h (by simp)

/-- Tail-recursive pairwise check. -/
def forPairs {α : Type} (p : α → α → Bool) : List α → Bool
  | [] => true
  | x :: xs => if allWith p x xs then forPairs p xs else false

theorem forPairs_sound {α : Type} {p : α → α → Bool} :
    ∀ {l : List α}, forPairs p l = true → l.Pairwise (fun a b => p a b = true) := by
  intro l
  induction l with
  | nil => intro; exact List.Pairwise.nil
  | cons x xs ih =>
    intro h
    simp only [forPairs] at h
    by_cases hx : allWith p x xs = true
    · rw [if_pos hx] at h
      exact List.Pairwise.cons (allWith_sound hx) (ih h)
    · rw [if_neg hx] at h
      exact absurd h (by simp)

theorem pairwise_mem_cases {α : Type} {R : α → α → Prop} :
    ∀ {l : List α}, l.Pairwise R → ∀ {p : α}, p ∈ l → ∀ {q : α}, q ∈ l →
      p = q ∨ R p q ∨ R q p := by
  intro l
  induction l with
  | nil => intro _ p hp; simp at hp
  | cons x xs ih =>
    intro h p hp q hq
    have hx := List.pairwise_cons.mp h
    rcases List.mem_cons.mp hp with hp1 | hp2 <;> rcases List.mem_cons.mp hq with hq1 | hq2
    · left; rw [hp1, hq1]
    · subst hp1; right; left; exact hx.1 q hq2
    · subst hq1; right; right; exact hx.1 p hp2
    · exact ih hx.2 hp2 hq2

/-!
Symbolic mesh vertices.

Every vertex the mesh builder constructs is either
`polarToCartesian radius (j * angleStep) z` with `angleStep = 2π/columns` and
an integer index `j`, or the explicit center point `(0, 0, z)`.  A vertex is
therefore recorded as a radius expression, an angle index reduced modulo
`columns`, and a height; radii are exact rationals except on the dome rings,
where the source computes `to + (from - to) * cos(t·π/2)` for rational `t`.
The reduction `j % columns` models the float pipeline: at `j = columns` the
source computes `cos/sin` of the float `2π`, and `normalizeZero` collapses
the resulting sub-1e-10 deviation of the y coordinate to exactly 0, so the
index `columns` and the index `0` produce the same quantized vertex. -/
inductive Rad : Type where
  | rat (q : Frac)
  | mix (b c : Frac) (s m : Nat)
deriving DecidableEq

/-- Canonical rational radius. -/
def Rad.ofFrac (q : Frac) : Rad := .rat q.norm

/-- The numeric argument of the cosine in a dome radius expression:
`(s / m) * (π / 2)` as an exact fraction of the float π constant. -/
def cosArg (s m : Nat) : Frac := (Frac.mul ⟨(s : Int), m⟩ (Frac.mul piF ⟨1, 2⟩))

structure PolarPt where
  r : Rad
  j : Nat
  z : Frac
deriving DecidableEq

/-- Embedding of the source helper `polarToCartesian(radius, angle, z)` for
`angle = j * (2π/columns)`: the cartesian point is recorded in polar form
with the index reduced modulo `columns` and normalized coordinates, which is
the identification the 1e-5 quantization of the inspection tool performs on
the float cartesian coordinates. -/
def polarToCartesian (cols : Nat) (r : Rad) (j : Nat) (z : Frac) : PolarPt :=
  match r with
  | .rat q => if q.n = 0 then ⟨.rat ⟨0, 1⟩, 0, z.norm⟩ else ⟨.rat q, j % cols, z.norm⟩
  | m => ⟨m, j % cols, z.norm⟩

/-- The explicit center points `{x: 0, y: 0, z}` of the base construction. -/
def centerPt (z : Frac) : PolarPt := ⟨.rat ⟨0, 1⟩, 0, z.norm⟩

/-- A triangle, as the ordered vertex triple the source pushes. -/
structure Tri where
  v1 : PolarPt
  v2 : PolarPt
  v3 : PolarPt
deriving DecidableEq

/-!
Injective numeric codes for vertices and edges.  The inspection tool
(`readBinarySTL`) keys vertices by their quantized coordinate string and
keys an edge by the ordered pair of its two vertex keys; here a vertex key is
an injective natural-number code of the symbolic vertex and an edge key is
the `Nat.pair` of the two vertex codes in increasing order. -/

def intCode : Int → Nat
  | .ofNat m => 2 * m
  | .negSucc m => 2 * m + 1

theorem intCode_inj {a b : Int} (h : intCode a = intCode b) : a = b := by
  match a, b with
  | .ofNat x, .ofNat y =>
    simp only [intCode] at h
    have : x = y := by omega
    rw [this]
  | .ofNat x, .negSucc y => simp only [intCode] at h; omega
  | .negSucc x, .ofNat y => simp only [intCode] at h; omega
  | .negSucc x, .negSucc y =>
    simp only [intCode] at h
    have : x = y := by omega
    rw [this]

def fracCode (a : Frac) : Nat := Nat.pair (intCode a.n) a.d

theorem fracCode_inj {a b : Frac} (h : fracCode a = fracCode b) : a = b := by
  obtain ⟨h1, h2⟩ := Nat.pair_eq_pair.mp h
  obtain ⟨an, ad⟩ := a
  obtain ⟨bn, bd⟩ := b
  have h3 : an = bn := intCode_inj h1
  simp only at h2
  rw [h3, h2]

def radCode : Rad → Nat
  | .rat q => Nat.pair 0 (fracCode q)
  | .mix b c s m => Nat.pair 1 (Nat.pair (fracCode b) (Nat.pair (fracCode c) (Nat.pair s m)))

theorem radCode_inj {a b : Rad} (h : radCode a = radCode b) : a = b := by
  match a, b with
  | .rat x, .rat y =>
    simp only [radCode] at h
    obtain ⟨-, h2⟩ := Nat.pair_eq_pair.mp h
    rw [fracCode_inj h2]
  | .rat x, .mix b' c' s' m' =>
    simp only [radCode] at h
    obtain ⟨h1, -⟩ := Nat.pair_eq_pair.mp h
    omega
  | .mix b c s m, .rat y =>
    simp only [radCode] at h
    obtain ⟨h1, -⟩ := Nat.pair_eq_pair.mp h
    omega
  | .mix b c s m, .mix b' c' s' m' =>
    simp only [radCode] at h
    obtain ⟨-, h2⟩ := Nat.pair_eq_pair.mp h
    obtain ⟨h3, h4⟩ := Nat.pair_eq_pair.mp h2
    obtain ⟨h5, h6⟩ := Nat.pair_eq_pair.mp h4
    obtain ⟨h7, h8⟩ := Nat.pair_eq_pair.mp h6
    rw [fracCode_inj h3, fracCode_inj h5, h7, h8]

def ptCode (p : PolarPt) : Nat := Nat.pair (radCode p.r) (Nat.pair p.j (fracCode p.z))

theorem ptCode_inj {p q : PolarPt} (h : ptCode p = ptCode q) : p = q := by
  obtain ⟨h1, h2⟩ := Nat.pair_eq_pair.mp h
  obtain ⟨h3, h4⟩ := Nat.pair_eq_pair.mp h2
  obtain ⟨pr, pj, pz⟩ := p
  obtain ⟨qr, qj, qz⟩ := q
  have e1 : pr = qr := radCode_inj h1
  have e2 : pz = qz := fracCode_inj h4
  simp only at h3
  rw [e1, e2, h3]

/-- Edge key: the two vertex codes in increasing order, paired (the tool uses
the lexicographically sorted pair of quantized vertex strings). -/
def edgeCode (a b : PolarPt) : Nat :=
  if ptCode a ≤ ptCode b then Nat.pair (ptCode a) (ptCode b)
  else Nat.pair (ptCode b) (ptCode a)

/-- The three edge keys of a triangle, in the order the tool adds them. -/
def triEdges (t : Tri) : List Nat :=
  [edgeCode t.v1 t.v2, edgeCode t.v2 t.v3, edgeCode t.v3 t.v1]

/-- All edge references of a mesh, one per triangle side. -/
def edgeList (ts : List Tri) : List Nat := ts.flatMap triEdges

/-- The manifoldness property reported by the inspection tool: every distinct
edge is referenced by exactly two triangle sides (no open edges, no
over-shared edges). -/
def isManifold (ts : List Tri) : Prop :=
  ∀ e ∈ edgeList ts, (edgeList ts).count e = 2

/-- Executable manifoldness check (sort the edge references, demand runs of
exactly two with strictly increasing heads). -/
def manifoldCheck (ts : List Tri) : Bool := countsAllTwo (edgeList ts)

theorem manifoldCheck_sound {ts : List Tri} (h : manifoldCheck ts = true) :
    isManifold ts := countsAllTwo_sound h

/-!
Interpretation of symbolic vertices as real cartesian points, and the
separation check that justifies treating symbolic-key equality as
coincidence of the real coordinates.  The interpretation is parametric in
the rational-embedding and trigonometric functions so that it stays
executable; theorems instantiate them with the canonical ones. -/

/-- The angle value `j * (2π / columns)` denoted by an angle index (float π),
as one exact fraction. -/
def angleOf (cols j : Nat) : Frac :=
  ⟨(j : Int) * (2 * 884279719003555), 281474976710656 * cols⟩

/-- Real value of a radius expression. -/
def radVal (cast : Frac → ℝ) (cosR : ℝ → ℝ) : Rad → ℝ
  | .rat q => cast q
  | .mix b c s m => cast b + cast c * cosR (cast (cosArg s m))

/-- Real cartesian interpretation of a symbolic vertex. -/
def interpPt (cast : Frac → ℝ) (cosR sinR : ℝ → ℝ) (cols : Nat) (p : PolarPt) :
    ℝ × ℝ × ℝ :=
  (cosR (cast (angleOf cols p.j)) * radVal cast cosR p.r,
   sinR (cast (angleOf cols p.j)) * radVal cast cosR p.r,
   cast p.z)

/-- Radius part of the pair separation test: two rational radii that differ
in value, or structurally equal radii of provably positive value with
distinct in-range angle indices. -/
def sepRad (cols pj qj : Nat) : Rad → Rad → Bool
  | .rat a, .rat b =>
    decide (0 ≤ a.n) && decide (0 ≤ b.n) && decide (0 < a.d) && decide (0 < b.d) &&
    (decide (a.n * (b.d : Int) ≠ b.n * (a.d : Int)) ||
     (a = b && decide (pj ≠ qj) && decide (pj < cols) && decide (qj < cols) &&
       decide (0 < a.n)))
  | .mix b c s m, .mix b' c' s' m' =>
    b = b' && c = c' && decide (s = s') && decide (m = m') &&
    decide (pj ≠ qj) && decide (pj < cols) && decide (qj < cols) &&
    decide (0 ≤ b.n) && decide (0 < c.n) && decide (0 < b.d) && decide (0 < c.d) &&
    decide (0 < s) && decide (s < m)
  | _, _ => false

/-- Pair separation test: two distinct vertex keys are admitted when they have
provably different real heights, or rational radii that differ in value or in
angle index (with a strictly positive radius). -/
def sepPair (cols : Nat) (p q : PolarPt) : Bool :=
  p = q ||
  (decide (0 < p.z.d) && decide (0 < q.z.d) &&
    decide (p.z.n * (q.z.d : Int) ≠ q.z.n * (p.z.d : Int))) ||
  sepRad cols p.j q.j p.r q.r

/-- Separation check over a key list. -/
def sepOK (cols : Nat) (ks : List PolarPt) : Bool := forPairs (sepPair cols) ks

theorem frac_cast_inj {a b : Frac} (ha : 0 < a.d) (hb : 0 < b.d)
    (h : (a.n : ℝ) / (a.d : ℝ) = (b.n : ℝ) / (b.d : ℝ)) :
    a.n * (b.d : Int) = b.n * (a.d : Int) := by
  rw [div_eq_div_iff (Nat.cast_ne_zero.mpr ha.ne') (Nat.cast_ne_zero.mpr hb.ne')] at h
  exact_mod_cast h

theorem piF_cast_lt_pi : ((884279719003555 : ℝ) / 281474976710656) < Real.pi := by
  calc ((884279719003555 : ℝ) / 281474976710656) < 3.14159265358979323846 := by norm_num
  _ < Real.pi := Real.pi_gt_d20

theorem angleOf_cast (cols j : Nat) (hc : (cols : ℝ) ≠ 0) :
    ((angleOf cols j).n : ℝ) / ((angleOf cols j).d : ℝ)
      = (j : ℝ) * (2 * (884279719003555 / 281474976710656)) / (cols : ℝ) := by
  simp only [angleOf]
  push_cast
  field_simp
  left
  norm_num

/-- Distinct angle indices below the column count give distinct points on the
unit circle: the angle values lie in `[0, 2π)` because the float π constant
is strictly below π. -/
theorem angle_index_inj (cols j1 j2 : Nat) (h1 : j1 < cols) (h2 : j2 < cols)
    (hcos : Real.cos (((angleOf cols j1).n : ℝ) / ((angleOf cols j1).d : ℝ))
          = Real.cos (((angleOf cols j2).n : ℝ) / ((angleOf cols j2).d : ℝ)))
    (hsin : Real.sin (((angleOf cols j1).n : ℝ) / ((angleOf cols j1).d : ℝ))
          = Real.sin (((angleOf cols j2).n : ℝ) / ((angleOf cols j2).d : ℝ))) :
    j1 = j2 := by
  have hc0 : (0 : ℝ) < (cols : ℝ) := by
    have : 0 < cols := lt_of_le_of_lt (Nat.zero_le j1) h1
    exact_mod_cast this
  have hcne : (cols : ℝ) ≠ 0 := ne_of_gt hc0
  have hang := Real.Angle.cos_sin_inj hcos hsin
  rw [Real.Angle.angle_eq_iff_two_pi_dvd_sub] at hang
  obtain ⟨k, hk⟩ := hang
  rw [angleOf_cast cols j1 hcne, angleOf_cast cols j2 hcne] at hk
  set P : ℝ := (884279719003555 / 281474976710656 : ℝ) with hP
  have hPpos : (0 : ℝ) < P := by rw [hP]; norm_num
  have hdiff : ((j1 : ℝ) - (j2 : ℝ)) * (2 * P) / (cols : ℝ) = 2 * Real.pi * (k : ℝ) := by
    rw [← hk]; ring
  have hbound : |((j1 : ℝ) - (j2 : ℝ)) * (2 * P) / (cols : ℝ)| < 2 * Real.pi := by
    rw [abs_div, abs_mul]
    have hjb : |(j1 : ℝ) - (j2 : ℝ)| < (cols : ℝ) := by
      rw [abs_sub_lt_iff]
      constructor
      · have : (j1 : ℝ) < (cols : ℝ) := by exact_mod_cast h1
        have h2' : (0 : ℝ) ≤ (j2 : ℝ) := by positivity
        linarith
      · have : (j2 : ℝ) < (cols : ℝ) := by exact_mod_cast h2
        have h1' : (0 : ℝ) ≤ (j1 : ℝ) := by positivity
        linarith
    have habs2P : |(2 * P : ℝ)| = 2 * P := abs_of_pos (by linarith)
    rw [habs2P, abs_of_pos hc0, div_lt_iff₀ hc0]
    have hPlt : P < Real.pi := piF_cast_lt_pi
    calc |(j1 : ℝ) - (j2 : ℝ)| * (2 * P) ≤ (cols : ℝ) * (2 * P) := by
          apply mul_le_mul_of_nonneg_right (le_of_lt hjb) (by linarith)
    _ < (cols : ℝ) * (2 * Real.pi) := by
          apply mul_lt_mul_of_pos_left (by linarith) hc0
    _ = 2 * Real.pi * (cols : ℝ) := by ring
  have hk0 : k = 0 := by
    by_contra hkne
    have hk1 : (1 : ℝ) ≤ |(k : ℝ)| := by
      have : (1 : ℤ) ≤ |k| := Int.one_le_abs (by exact_mod_cast hkne)
      calc (1 : ℝ) ≤ (|k| : ℤ) := by exact_mod_cast this
      _ = |(k : ℝ)| := by push_cast; rfl
    rw [hdiff, abs_mul, abs_mul] at hbound
    have hpi : (0 : ℝ) < Real.pi := Real.pi_pos
    have : |(2 : ℝ)| * |Real.pi| = 2 * Real.pi := by
      rw [abs_of_pos (by norm_num), abs_of_pos hpi]
    rw [this] at hbound
    nlinarith
  rw [hk0] at hdiff
  have : ((j1 : ℝ) - (j2 : ℝ)) * (2 * P) / (cols : ℝ) = 0 := by
    rw [hdiff]; ring
  rw [div_eq_zero_iff] at this
  rcases this with h | h
  · rcases mul_eq_zero.mp h with h' | h'
    · have : (j1 : ℝ) = (j2 : ℝ) := by linarith
      exact_mod_cast this
    · exact absurd h' (by positivity)
  · exact absurd h hcne

theorem sepRad_spec (cols pj qj : Nat) (ra rb : Rad)
    (h : sepRad cols pj qj ra rb = true) :
    (∃ a b, ra = Rad.rat a ∧ rb = Rad.rat b ∧ 0 ≤ a.n ∧ 0 ≤ b.n ∧ 0 < a.d ∧ 0 < b.d ∧
      (a.n * (b.d : Int) ≠ b.n * (a.d : Int) ∨
       (a = b ∧ pj ≠ qj ∧ pj < cols ∧ qj < cols ∧ 0 < a.n))) ∨
    (∃ b c s m, ra = Rad.mix b c s m ∧ rb = Rad.mix b c s m ∧
      pj ≠ qj ∧ pj < cols ∧ qj < cols ∧
      0 ≤ b.n ∧ 0 < c.n ∧ 0 < b.d ∧ 0 < c.d ∧ 0 < s ∧ s < m) := by
  cases ra with
  | mix b c s m =>
    cases rb with
    | rat a => exact absurd h (by simp [sepRad])
    | mix b' c' s' m' =>
      right
      simp only [sepRad, Bool.and_eq_true, decide_eq_true_eq] at h
      obtain ⟨⟨⟨⟨⟨⟨⟨⟨⟨⟨⟨⟨hb, hc⟩, hs⟩, hm⟩, hne⟩, hpj⟩, hqj⟩, hb0⟩, hc0⟩, hbd⟩, hcd⟩, hs0⟩,
        hsm⟩ := h
      refine ⟨b, c, s, m, rfl, ?_, hne, hpj, hqj, hb0, hc0, hbd, hcd, hs0, hsm⟩
      rw [hb, hc, hs, hm]
  | rat a =>
    cases rb with
    | mix b c s m => exact absurd h (by simp [sepRad])
    | rat b =>
      left
      refine ⟨a, b, rfl, rfl, ?_⟩
      simp only [sepRad, Bool.and_eq_true, Bool.or_eq_true, decide_eq_true_eq] at h
      tauto

/-- The cosine argument of a canonical dome radius expression lies strictly
between 0 and π/2. -/
theorem cosArg_bounds (s m : Nat) (hs : 0 < s) (hsm : s < m) :
    0 < ((cosArg s m).n : ℝ) / ((cosArg s m).d : ℝ) ∧
    ((cosArg s m).n : ℝ) / ((cosArg s m).d : ℝ) < Real.pi / 2 := by
  have hm : 0 < m := lt_trans hs hsm
  have hval : ((cosArg s m).n : ℝ) / ((cosArg s m).d : ℝ)
      = ((s : ℝ) * 884279719003555) / ((m : ℝ) * 562949953421312) := by
    simp only [cosArg, Frac.mul, piF]
    push_cast
    ring_nf
  rw [hval]
  constructor
  · apply div_pos
    · have : (0 : ℝ) < (s : ℝ) := by exact_mod_cast hs
      positivity
    · have : (0 : ℝ) < (m : ℝ) := by exact_mod_cast hm
      positivity
  · have hlt : ((s : ℝ) * 884279719003555) / ((m : ℝ) * 562949953421312)
        < (884279719003555 : ℝ) / 562949953421312 := by
      rw [div_lt_div_iff₀ (by
        have : (0 : ℝ) < (m : ℝ) := by exact_mod_cast hm
        positivity) (by norm_num)]
      have hsr : (s : ℝ) < (m : ℝ) := by exact_mod_cast hsm
      nlinarith
    have hhalf : (884279719003555 : ℝ) / 562949953421312 < Real.pi / 2 := by
      have := piF_cast_lt_pi
      have h2 : (884279719003555 : ℝ) / 562949953421312
          = ((884279719003555 : ℝ) / 281474976710656) / 2 := by norm_num
      linarith
    linarith

/-- Separated vertex keys interpret to distinct real cartesian points. -/
theorem sepPair_inj (cols : Nat) (p q : PolarPt)
    (hpair : sepPair cols p q = true)
    (heq : interpPt (fun a => (a.n : ℝ) / (a.d : ℝ)) Real.cos Real.sin cols p
         = interpPt (fun a => (a.n : ℝ) / (a.d : ℝ)) Real.cos Real.sin cols q) :
    p = q := by
  rw [interpPt, interpPt, Prod.mk.injEq, Prod.mk.injEq] at heq
  obtain ⟨hx, hy, hz⟩ := heq
  simp only [sepPair, Bool.or_eq_true] at hpair
  rcases hpair with (h | h) | h
  · exact of_decide_eq_true h
  · rw [Bool.and_eq_true, Bool.and_eq_true] at h
    obtain ⟨⟨hd1, hd2⟩, hne⟩ := h
    exact absurd (frac_cast_inj (of_decide_eq_true hd1) (of_decide_eq_true hd2) hz)
      (of_decide_eq_true hne)
  · rcases sepRad_spec cols p.j q.j p.r q.r h with
      ⟨a, b, hra, hrb, ha0, hb0, had, hbd, hor⟩ |
      ⟨b, c, s, m, hra, hrb, hjne, hjp, hjq, hb0, hc0, hbd, hcd, hs0, hsm⟩
    · rw [hra] at hx
      rw [hrb] at hx
      rw [hra] at hy
      rw [hrb] at hy
      simp only [radVal] at hx hy
      have hca : (0 : ℝ) ≤ (a.n : ℝ) / (a.d : ℝ) :=
        div_nonneg (by exact_mod_cast ha0) (by positivity)
      have hcb : (0 : ℝ) ≤ (b.n : ℝ) / (b.d : ℝ) :=
        div_nonneg (by exact_mod_cast hb0) (by positivity)
      have e1 : ∀ (θ r : ℝ), (Real.cos θ * r) ^ 2 + (Real.sin θ * r) ^ 2 = r ^ 2 := by
        intro θ r
        rw [mul_pow, mul_pow, ← add_mul, Real.cos_sq_add_sin_sq, one_mul]
      have hsq : ((a.n : ℝ) / (a.d : ℝ)) ^ 2 = ((b.n : ℝ) / (b.d : ℝ)) ^ 2 := by
        have h1 := e1 (((angleOf cols p.j).n : ℝ) / ((angleOf cols p.j).d : ℝ))
          ((a.n : ℝ) / (a.d : ℝ))
        have h2 := e1 (((angleOf cols q.j).n : ℝ) / ((angleOf cols q.j).d : ℝ))
          ((b.n : ℝ) / (b.d : ℝ))
        rw [hx, hy] at h1
        exact h1.symm.trans h2
      have hcab : (a.n : ℝ) / (a.d : ℝ) = (b.n : ℝ) / (b.d : ℝ) := by
        nlinarith [hca, hcb, hsq]
      rcases hor with hne | ⟨hab, hjne, hjp, hjq, hapos⟩
      · exact absurd (frac_cast_inj had hbd hcab) hne
      · exfalso
        have hrpos : (0 : ℝ) < (a.n : ℝ) / (a.d : ℝ) := by
          apply div_pos
          · exact_mod_cast hapos
          · exact_mod_cast had
        subst hab
        have hcos := mul_right_cancel₀ (ne_of_gt hrpos) hx
        have hsin := mul_right_cancel₀ (ne_of_gt hrpos) hy
        exact hjne (angle_index_inj cols p.j q.j hjp hjq hcos hsin)
    · exfalso
      rw [hra] at hx
      rw [hrb] at hx
      rw [hra] at hy
      rw [hrb] at hy
      simp only [radVal] at hx hy
      obtain ⟨hargpos, harglt⟩ := cosArg_bounds s m hs0 hsm
      have hcospos : (0 : ℝ) < Real.cos (((cosArg s m).n : ℝ) / ((cosArg s m).d : ℝ)) := by
        apply Real.cos_pos_of_mem_Ioo
        constructor
        · have := Real.pi_pos
          linarith
        · exact harglt
      have hrpos : (0 : ℝ) < (b.n : ℝ) / (b.d : ℝ)
          + (c.n : ℝ) / (c.d : ℝ)
            * Real.cos (((cosArg s m).n : ℝ) / ((cosArg s m).d : ℝ)) := by
        have hcb : (0 : ℝ) ≤ (b.n : ℝ) / (b.d : ℝ) :=
          div_nonneg (by exact_mod_cast hb0) (by positivity)
        have hcc : (0 : ℝ) < (c.n : ℝ) / (c.d : ℝ) := by
          apply div_pos
          · exact_mod_cast hc0
          · exact_mod_cast hcd
        have := mul_pos hcc hcospos
        linarith
      have hcos := mul_right_cancel₀ (ne_of_gt hrpos) hx
      have hsin := mul_right_cancel₀ (ne_of_gt hrpos) hy
      exact hjne (angle_index_inj cols p.j q.j hjp hjq hcos hsin)

/-- Separation soundness: a checked key list embeds injectively into real
cartesian space under the canonical interpretation. -/
theorem sepOK_inj {cols : Nat} {ks : List PolarPt} (h : sepOK cols ks = true) :
    ∀ p ∈ ks, ∀ q ∈ ks,
      interpPt (fun a => (a.n : ℝ) / (a.d : ℝ)) Real.cos Real.sin cols p
        = interpPt (fun a => (a.n : ℝ) / (a.d : ℝ)) Real.cos Real.sin cols q →
      p = q := by
  have hp := forPairs_sound h
  intro p hp1 q hq1 heq
  rcases pairwise_mem_cases hp hp1 hq1 with hpq | hR | hR
  · exact hpq
  · exact sepPair_inj cols p q hR heq
  · exact (sepPair_inj cols q p hR heq.symm).symm

/-!
Embedding of `src/src/lib/image-processor.ts`.

The DOM boundary is modelled away: `processImage` receives the RGBA pixel
buffer the source reads back from its freshly drawn canvas
(`ctx.getImageData`), so the image-decoding and canvas-drawing collaborator
(out of scope per the specification) is the identity here.  `Math.cos` and
`Math.sin` are passed in as exact rational functions (every float64 result
of the runtime library is a rational number).  The float literals 0.299,
0.587, 0.114, 0.35 are idealized as the exact decimal fractions they print
as; their sub-1e-16 float deviations affect no claim settled here.
-/

/-- The polar occupancy mask produced by the resampler (field `data` is true
where the sampled image is dark, i.e. at cutout cells). -/
structure CutoutMask where
  data : List (List Bool)
  columns : Nat
  rows : Nat
deriving DecidableEq

structure ProcessingParams where
  angularResolution : Frac
  threshold : Frac

/-- RGBA pixel buffer with explicit dimensions. -/
structure ImageData where
  width : Nat
  height : Nat
  data : List Nat
deriving DecidableEq

/-- Modelled from the call sites and the standard JS helper shape: the
`clamp` import of `utils.ts` (a file not included in the source pack) is
`Math.min(Math.max(value, lo), hi)`. -/
def clamp (v lo hi : Frac) : Frac := Frac.fmin (Frac.fmax v lo) hi

structure Sample where
  gray : Frac
  alpha : Frac

/-- Source `samplePixel`: luminance and alpha of one pixel, with the `?? 0`
and `?? 255` defaults for out-of-range reads. -/
def samplePixel (data : List Nat) (width x y : Nat) : Sample :=
  let i := (y * width + x) * 4
  let r := data.getD i 0
  let g := data.getD (i + 1) 0
  let b := data.getD (i + 2) 0
  let alpha := data.getD (i + 3) 255
  { gray := ⟨(299 * r + 587 * g + 114 * b : Nat), 1000⟩, alpha := Frac.ofNat alpha }

/-- Source `toBinary`: per-pixel solidity, `alpha ≥ 128 AND gray < threshold`. -/
def toBinary (img : ImageData) (threshold : Frac) : List (List Bool) :=
  (List.range img.height).map (fun y =>
    (List.range img.width).map (fun x =>
      let s := samplePixel img.data img.width x y
      decide (Frac.le ⟨128, 1⟩ s.alpha) && decide (Frac.lt s.gray threshold)))

/-- Source `sampleBilinear`: clamp to the pixel grid and blend the four
nearest pixels.  (On the guarded paths the image has positive dimensions, so
the floored coordinates are nonnegative.) -/
def sampleBilinear (img : ImageData) (x y : Frac) : Sample :=
  let clampedX := clamp x ⟨0, 1⟩ ⟨(img.width : Int) - 1, 1⟩
  let clampedY := clamp y ⟨0, 1⟩ ⟨(img.height : Int) - 1, 1⟩
  let x0 := Frac.floor clampedX
  let y0 := Frac.floor clampedY
  let x1 := min (x0 + 1) ((img.width : Int) - 1)
  let y1 := min (y0 + 1) ((img.height : Int) - 1)
  let dx := Frac.sub clampedX (Frac.ofInt x0)
  let dy := Frac.sub clampedY (Frac.ofInt y0)
  let p00 := samplePixel img.data img.width x0.toNat y0.toNat
  let p10 := samplePixel img.data img.width x1.toNat y0.toNat
  let p01 := samplePixel img.data img.width x0.toNat y1.toNat
  let p11 := samplePixel img.data img.width x1.toNat y1.toNat
  let w00 := Frac.mul (Frac.sub ⟨1, 1⟩ dx) (Frac.sub ⟨1, 1⟩ dy)
  let w10 := Frac.mul dx (Frac.sub ⟨1, 1⟩ dy)
  let w01 := Frac.mul (Frac.sub ⟨1, 1⟩ dx) dy
  let w11 := Frac.mul dx dy
  { gray := Frac.add (Frac.add (Frac.mul p00.gray w00) (Frac.mul p10.gray w10))
      (Frac.add (Frac.mul p01.gray w01) (Frac.mul p11.gray w11)),
    alpha := Frac.add (Frac.add (Frac.mul p00.alpha w00) (Frac.mul p10.alpha w10))
      (Frac.add (Frac.mul p01.alpha w01) (Frac.mul p11.alpha w11)) }

/-- Source `sampleSupersampled`: five bilinear taps (center plus diagonal
offsets of 0.35 px), averaged. -/
def sampleSupersampled (img : ImageData) (x y : Frac) : Sample :=
  let spread : Frac := ⟨7, 20⟩
  let s1 := sampleBilinear img x y
  let s2 := sampleBilinear img (Frac.sub x spread) (Frac.sub y spread)
  let s3 := sampleBilinear img (Frac.add x spread) (Frac.sub y spread)
  let s4 := sampleBilinear img (Frac.sub x spread) (Frac.add y spread)
  let s5 := sampleBilinear img (Frac.add x spread) (Frac.add y spread)
  let sumG := Frac.add (Frac.add (Frac.add (Frac.add s1.gray s2.gray) s3.gray) s4.gray) s5.gray
  let sumA := Frac.add (Frac.add (Frac.add (Frac.add s1.alpha s2.alpha) s3.alpha) s4.alpha)
    s5.alpha
  { gray := Frac.div sumG ⟨5, 1⟩, alpha := Frac.div sumA ⟨5, 1⟩ }

/-- The per-cell solidity test applied to a supersampled polar cell. -/
def radialCell (img : ImageData) (threshold : Frac) (cols rows : Nat)
    (cosQ sinQ : Frac → Frac) (row col : Nat) : Bool :=
  let centerX := Frac.div ⟨(img.width : Int) - 1, 1⟩ ⟨2, 1⟩
  let centerY := Frac.div ⟨(img.height : Int) - 1, 1⟩ ⟨2, 1⟩
  let maxRadius := Frac.fmin centerX centerY
  let angleStep := Frac.div (Frac.mul ⟨2, 1⟩ piF) (Frac.ofNat cols)
  let rowDenominator := max (rows - 1) 1
  let radius := Frac.div (Frac.mul maxRadius (Frac.ofNat (rows - 1 - row)))
    (Frac.ofNat rowDenominator)
  let angle := Frac.mul (Frac.add (Frac.ofNat col) ⟨1, 2⟩) angleStep
  let x := Frac.add centerX (Frac.mul (cosQ angle) radius)
  let y := Frac.add centerY (Frac.mul (sinQ angle) radius)
  let s := sampleSupersampled img x y
  decide (Frac.le ⟨128, 1⟩ s.alpha) && decide (Frac.lt s.gray threshold)

/-- Source `buildRadialMask`: polar resampling of the image into a
`rows × columns` boolean grid; fails when the image is empty. -/
def buildRadialMask (img : ImageData) (threshold : Frac) (cols rows : Nat)
    (cosQ sinQ : Frac → Frac) : Except String (List (List Bool)) :=
  if img.height = 0 ∨ img.width = 0 then .error "Image has no data."
  else .ok ((List.range rows).map (fun row =>
    (List.range cols).map (fun col =>
      radialCell img threshold cols rows cosQ sinQ row col)))

/-- Source `getMaskResolution`: `min(720, round(max(angularResolution*12, 240)))`
(the argument is already an integer, so the inner round is the identity). -/
def getMaskResolution (ar : Int) : Nat := (min 720 (max (ar * 12) 240)).toNat

/-- Source `processImage`.  The canvas stage is the identity here (see the
section comment); the `Number.isFinite` guard cannot fire on exact
fractions and is omitted. -/
def processImage (img : ImageData) (params : ProcessingParams)
    (cosQ sinQ : Frac → Frac) : Except String CutoutMask :=
  let ar : Int := Frac.round params.angularResolution
  if ar < 3 then .error "Angular resolution must be at least 3."
  else
    let threshold := clamp params.threshold ⟨0, 1⟩ ⟨255, 1⟩
    let maskResolution := getMaskResolution ar
    if img.width = 0 ∨ img.height = 0 then .error "Image has no data."
    else
      let binary := toBinary img threshold
      let hasAnyDarkPixels := binary.any (fun row => row.any id)
      let hasAnyLightPixels := binary.any (fun row => row.any (fun p => !p))
      if !hasAnyDarkPixels then
        .error "Image is all white/transparent. Please provide an image with dark silhouette content. Try lowering the threshold."
      else if !hasAnyLightPixels then
        .error "Image is all black. Please provide an image with a clear silhouette. Try raising the threshold."
      else
        (buildRadialMask img threshold maskResolution maskResolution cosQ sinQ).map
          (fun data => { data := data, columns := maskResolution, rows := maskResolution })

/-!
Embedding of `src/src/lib/stl-generator.ts` (mesh construction).

Triangles are accumulated in the same order in which the source pushes them;
each `addQuad(v1, v2, v3, v4)` is the two triangles `(v1, v2, v3)` and
`(v1, v3, v4)`.  All angles passed to `polarToCartesian` in the source are
integer multiples of `angleStep = 2π/columns`, so vertices carry the integer
angle index.
-/

structure GeometryParams where
  domeDiameter : Frac
  domeHeight : Frac
  wallThickness : Frac
  wallHeight : Frac
  ledMountDiameter : Frac
  ledMountHeight : Frac
  pillarCount : Frac
deriving DecidableEq

inductive StlFormat : Type where
  | binary
  | ascii
deriving DecidableEq

/-- Source `addQuad`: the diagonal split into two triangles. -/
def quad (v1 v2 v3 v4 : PolarPt) : List Tri := [⟨v1, v2, v3⟩, ⟨v1, v3, v4⟩]

/-- Source `validateGeometryParams` (the `Number.isFinite` guard cannot fire
on exact fractions and is omitted). -/
def validateGeometryParams (p : GeometryParams) : Except String Unit :=
  if Frac.le p.domeDiameter ⟨0, 1⟩ ∨ Frac.le p.domeHeight ⟨0, 1⟩ then
    .error "Dome dimensions must be positive."
  else if Frac.le p.wallThickness ⟨0, 1⟩ then
    .error "Wall thickness must be greater than 0."
  else if Frac.le p.wallHeight ⟨0, 1⟩ then
    .error "Wall height must be greater than 0."
  else if Frac.le p.ledMountDiameter ⟨0, 1⟩ ∨ Frac.le p.ledMountHeight ⟨0, 1⟩ then
    .error "Tea light mount dimensions must be positive."
  else if Frac.lt p.pillarCount ⟨3, 1⟩ then
    .error "Pillar count must be at least 3."
  else if Frac.le (Frac.div p.domeDiameter ⟨2, 1⟩) p.wallThickness then
    .error "Wall thickness must be smaller than the dome radius."
  else if Frac.le (Frac.div p.domeDiameter ⟨2, 1⟩)
      (Frac.add (Frac.div p.ledMountDiameter ⟨2, 1⟩) p.wallThickness) then
    .error "Tea light hole must be smaller than the dome diameter."
  else .ok ()

/-- Source `interpolateRadius(from, to, progress)` at `progress = s/m`: the
radius expression `to + (from - to) * cos((s/m)·(π/2))` in canonical form.
The endpoint cases (`s = 0`, `s = m`), the rational-cosine point `s/m = 2/3`
and a zero coefficient are folded to exact rationals: at those points the
float evaluation deviates from the folded value by far less than the 1e-5
quantization step of the inspection tool, which therefore identifies them. -/
def interpolateRadius (rFrom rTo : Frac) (s m : Nat) : Rad :=
  let c := Frac.sub rFrom rTo
  if c.n = 0 then Rad.ofFrac rTo
  else if s = 0 then Rad.ofFrac rFrom
  else if m ≤ s then Rad.ofFrac rTo
  else if 3 * s = 2 * m then Rad.ofFrac (Frac.add rTo (Frac.mul c ⟨1, 2⟩))
  else Rad.mix rTo.norm c.norm (s / Nat.gcd s m) (m / Nat.gcd s m)

/-- All quantities the source derives from the mask and the parameters
before emitting triangles (lines 104-150 of the generator). -/
structure Geo where
  columns : Nat
  rows : Nat
  outerRadius : Frac
  wallThickness : Frac
  innerRadius : Frac
  baseThickness : Frac
  wallHeight : Frac
  wallTop : Frac
  domeHeight : Frac
  domeTop : Frac
  teaLightRadius : Frac
  pocketRadius : Frac
  innerHoleRadius : Frac
  pocketDepth : Frac
  pocketBottom : Frac
  innerDomeHeight : Frac
  openingRadius : Frac
  domeOuterTopRadius : Frac
  pillarColumns : List Bool
  domeSteps : Nat
  innerSteps : Nat

/-- Derivation of `Geo` from the inputs, following the source expressions. -/
def mkGeo (cutout : CutoutMask) (params : GeometryParams) : Geo :=
  let outerRadius := Frac.div params.domeDiameter ⟨2, 1⟩
  let wallThickness := params.wallThickness
  let innerRadius := Frac.sub outerRadius wallThickness
  let baseThickness := wallThickness
  let wallHeight := params.wallHeight
  let wallTop := Frac.add baseThickness wallHeight
  let domeHeight := params.domeHeight
  let domeTop := Frac.add wallTop domeHeight
  let teaLightRadius := Frac.div params.ledMountDiameter ⟨2, 1⟩
  let clearance := Frac.fmax ⟨2, 5⟩ (Frac.mul wallThickness ⟨1, 4⟩)
  let pocketRadius := Frac.add teaLightRadius clearance
  let lipWidth := Frac.fmin (Frac.fmax (Frac.mul wallThickness ⟨3, 2⟩) ⟨2, 1⟩)
    (Frac.mul teaLightRadius ⟨1, 4⟩)
  let innerHoleMax := Frac.fmax (Frac.sub innerRadius wallThickness) wallThickness
  let innerHoleRadius := Frac.fmin
    (Frac.fmax (Frac.sub teaLightRadius lipWidth) wallThickness) innerHoleMax
  let pocketDepthMax := Frac.fmax (Frac.sub domeHeight wallThickness) wallThickness
  let pocketDepth := clamp params.ledMountHeight wallThickness pocketDepthMax
  let pocketBottom := Frac.sub domeTop pocketDepth
  let innerDomeHeight := Frac.fmax (Frac.sub domeHeight pocketDepth) ⟨0, 1⟩
  let openingRadius := pocketRadius
  let domeShellThickness := wallThickness
  let domeOuterTopRadius := Frac.add openingRadius domeShellThickness
  let epsilon : Frac := ⟨1, 1000000⟩
  let columns := cutout.columns
  let rows := cutout.rows
  let angleStep := Frac.div (Frac.mul ⟨2, 1⟩ piF) (Frac.ofNat columns)
  let pillarCount := (max 3 (Frac.round params.pillarCount)).toNat
  let pillarStep := Frac.div (Frac.mul ⟨2, 1⟩ piF) (Frac.ofNat pillarCount)
  let minPillarWidth := Frac.div wallThickness (Frac.fmax innerRadius epsilon)
  let targetPillarWidth := Frac.mul pillarStep ⟨1, 4⟩
  let pillarWidth := Frac.fmin pillarStep (Frac.fmax targetPillarWidth minPillarWidth)
  let pillarHalf := Frac.div pillarWidth ⟨2, 1⟩
  let pillarColumns := (List.range columns).map (fun col =>
    let angle := Frac.mul (Frac.add (Frac.ofNat col) ⟨1, 2⟩) angleStep
    let normalized := Frac.jsMod (Frac.add angle (Frac.mul ⟨2, 1⟩ piF))
      (Frac.mul ⟨2, 1⟩ piF)
    let pillarIndex := (Frac.round (Frac.div normalized pillarStep)).toNat % pillarCount
    let center := Frac.mul (Frac.ofNat pillarIndex) pillarStep
    let delta := Frac.abs (Frac.sub normalized center)
    let wrapped := Frac.fmin delta (Frac.sub (Frac.mul ⟨2, 1⟩ piF) delta)
    decide (Frac.le wrapped (Frac.add pillarHalf epsilon)))
  let domeSteps := max 8 (Frac.round (Frac.div (Frac.ofNat columns) ⟨6, 1⟩)).toNat
  let innerSteps := if Frac.lt ⟨0, 1⟩ innerDomeHeight then
      max 4 (Frac.round (Frac.mul (Frac.ofNat domeSteps)
        (Frac.div innerDomeHeight domeHeight))).toNat
    else 0
  { columns := columns, rows := rows, outerRadius := outerRadius,
    wallThickness := wallThickness, innerRadius := innerRadius,
    baseThickness := baseThickness, wallHeight := wallHeight, wallTop := wallTop,
    domeHeight := domeHeight, domeTop := domeTop, teaLightRadius := teaLightRadius,
    pocketRadius := pocketRadius, innerHoleRadius := innerHoleRadius,
    pocketDepth := pocketDepth, pocketBottom := pocketBottom,
    innerDomeHeight := innerDomeHeight, openingRadius := openingRadius,
    domeOuterTopRadius := domeOuterTopRadius, pillarColumns := pillarColumns,
    domeSteps := domeSteps, innerSteps := innerSteps }

/-- Source `isSolid`: forced solid on the bottom and top grid rows and on
pillar columns; otherwise solid exactly where the mask does NOT mark a
cutout (`!(cutout.data[row]?.[col] ?? false)`). -/
def isSolid (g : Geo) (cutout : CutoutMask) (row col : Nat) : Bool :=
  decide (row = 0) || decide (row = g.rows - 1) || g.pillarColumns.getD col false ||
    !((cutout.data.getD row []).getD col false)

/-- Source `addRadialFace`: the radial outer-to-inner capping quad at one
angle index. -/
def addRadialFace (g : Geo) (j : Nat) (zBottom zTop : Frac) (flip : Bool) : List Tri :=
  let outerBottom := polarToCartesian g.columns (Rad.ofFrac g.outerRadius) j zBottom
  let outerTop := polarToCartesian g.columns (Rad.ofFrac g.outerRadius) j zTop
  let innerTop := polarToCartesian g.columns (Rad.ofFrac g.innerRadius) j zTop
  let innerBottom := polarToCartesian g.columns (Rad.ofFrac g.innerRadius) j zBottom
  if flip then quad outerBottom innerBottom innerTop outerTop
  else quad outerBottom outerTop innerTop innerBottom

/-- Source `addHorizontalFace`: the horizontal capping quad between two
angle indices at one height. -/
def addHorizontalFace (g : Geo) (z : Frac) (j1 j2 : Nat) (flip : Bool) : List Tri :=
  let outer1 := polarToCartesian g.columns (Rad.ofFrac g.outerRadius) j1 z
  let outer2 := polarToCartesian g.columns (Rad.ofFrac g.outerRadius) j2 z
  let inner2 := polarToCartesian g.columns (Rad.ofFrac g.innerRadius) j2 z
  let inner1 := polarToCartesian g.columns (Rad.ofFrac g.innerRadius) j1 z
  if flip then quad outer1 inner1 inner2 outer2
  else quad outer1 outer2 inner2 inner1

/-- Base construction (first per-column loop of the source): bottom disc,
top inner disc, outer rim wall, and the horizontal cap for bottom-row
cutouts (which is dead code, since the bottom row is forced solid). -/
def baseTris (g : Geo) (cutout : CutoutMask) : List Tri :=
  let centerBottom := centerPt ⟨0, 1⟩
  let centerTop := centerPt g.baseThickness
  (List.range g.columns).flatMap (fun col =>
    let outerBottom1 := polarToCartesian g.columns (Rad.ofFrac g.outerRadius) col ⟨0, 1⟩
    let outerBottom2 := polarToCartesian g.columns (Rad.ofFrac g.outerRadius) (col + 1) ⟨0, 1⟩
    let innerTop1 := polarToCartesian g.columns (Rad.ofFrac g.innerRadius) col g.baseThickness
    let innerTop2 := polarToCartesian g.columns (Rad.ofFrac g.innerRadius) (col + 1)
      g.baseThickness
    let outerTop1 := polarToCartesian g.columns (Rad.ofFrac g.outerRadius) col g.baseThickness
    let outerTop2 := polarToCartesian g.columns (Rad.ofFrac g.outerRadius) (col + 1)
      g.baseThickness
    [Tri.mk centerBottom outerBottom2 outerBottom1,
     Tri.mk centerTop innerTop1 innerTop2] ++
    quad outerBottom1 outerBottom2 outerTop2 outerTop1 ++
    (if !isSolid g cutout (g.rows - 1) col then
      quad outerTop1 outerTop2 innerTop2 innerTop1
    else []))

/-- The two skin quads of one wall cell. -/
def wallCellSkin (g : Geo) (row col : Nat) : List Tri :=
  let zTop := Frac.sub g.wallTop
    (Frac.mul (Frac.div (Frac.ofNat row) (Frac.ofNat g.rows)) g.wallHeight)
  let zBottom := Frac.sub g.wallTop
    (Frac.mul (Frac.div (Frac.ofNat (row + 1)) (Frac.ofNat g.rows)) g.wallHeight)
  quad (polarToCartesian g.columns (Rad.ofFrac g.outerRadius) col zBottom)
    (polarToCartesian g.columns (Rad.ofFrac g.outerRadius) (col + 1) zBottom)
    (polarToCartesian g.columns (Rad.ofFrac g.outerRadius) (col + 1) zTop)
    (polarToCartesian g.columns (Rad.ofFrac g.outerRadius) col zTop) ++
  quad (polarToCartesian g.columns (Rad.ofFrac g.innerRadius) col zBottom)
    (polarToCartesian g.columns (Rad.ofFrac g.innerRadius) (col + 1) zBottom)
    (polarToCartesian g.columns (Rad.ofFrac g.innerRadius) (col + 1) zTop)
    (polarToCartesian g.columns (Rad.ofFrac g.innerRadius) col zTop)

/-- Wall construction (second per-column, per-row loop of the source):
skin quads for solid cells and cap faces toward non-solid neighbors. -/
def wallTris (g : Geo) (cutout : CutoutMask) : List Tri :=
  (List.range g.columns).flatMap (fun col =>
    let prevCol := (col + g.columns - 1) % g.columns
    let nextCol := (col + 1) % g.columns
    (List.range g.rows).flatMap (fun row =>
      if !isSolid g cutout row col then []
      else
        let zTop := Frac.sub g.wallTop
          (Frac.mul (Frac.div (Frac.ofNat row) (Frac.ofNat g.rows)) g.wallHeight)
        let zBottom := Frac.sub g.wallTop
          (Frac.mul (Frac.div (Frac.ofNat (row + 1)) (Frac.ofNat g.rows)) g.wallHeight)
        wallCellSkin g row col ++
        (if !isSolid g cutout row prevCol then addRadialFace g col zBottom zTop true
         else []) ++
        (if !isSolid g cutout row nextCol then
          addRadialFace g (col + 1) zBottom zTop false
         else []) ++
        (if row > 0 && !isSolid g cutout (row - 1) col then
          addHorizontalFace g zTop col (col + 1) false
         else []) ++
        (if row < g.rows - 1 && !isSolid g cutout (row + 1) col then
          addHorizontalFace g zBottom col (col + 1) true
         else [])))

/-- Outer dome shell (third loop of the source). -/
def domeOuterTris (g : Geo) : List Tri :=
  (List.range g.domeSteps).flatMap (fun step =>
    let z1 := Frac.add g.wallTop (Frac.mul g.domeHeight
      (Frac.div (Frac.ofNat step) (Frac.ofNat g.domeSteps)))
    let z2 := Frac.add g.wallTop (Frac.mul g.domeHeight
      (Frac.div (Frac.ofNat (step + 1)) (Frac.ofNat g.domeSteps)))
    let outerR1 := interpolateRadius g.outerRadius g.domeOuterTopRadius step g.domeSteps
    let outerR2 := interpolateRadius g.outerRadius g.domeOuterTopRadius (step + 1) g.domeSteps
    (List.range g.columns).flatMap (fun i =>
      quad (polarToCartesian g.columns outerR1 i z1)
        (polarToCartesian g.columns outerR1 (i + 1) z1)
        (polarToCartesian g.columns outerR2 (i + 1) z2)
        (polarToCartesian g.columns outerR2 i z2)))

/-- Inner dome shell (fourth loop of the source; absent when the inner dome
height collapses to zero). -/
def domeInnerTris (g : Geo) : List Tri :=
  (List.range g.innerSteps).flatMap (fun step =>
    let z1 := Frac.add g.wallTop (Frac.mul g.innerDomeHeight
      (Frac.div (Frac.ofNat step) (Frac.ofNat g.innerSteps)))
    let z2 := Frac.add g.wallTop (Frac.mul g.innerDomeHeight
      (Frac.div (Frac.ofNat (step + 1)) (Frac.ofNat g.innerSteps)))
    let innerR1 := interpolateRadius g.innerRadius g.innerHoleRadius step g.innerSteps
    let innerR2 := interpolateRadius g.innerRadius g.innerHoleRadius (step + 1) g.innerSteps
    (List.range g.columns).flatMap (fun i =>
      quad (polarToCartesian g.columns innerR2 i z2)
        (polarToCartesian g.columns innerR2 (i + 1) z2)
        (polarToCartesian g.columns innerR1 (i + 1) z1)
        (polarToCartesian g.columns innerR1 i z1)))

/-- Mounting-pocket cylinder and lip annulus (fifth loop of the source). -/
def pocketLipTris (g : Geo) : List Tri :=
  (List.range g.columns).flatMap (fun i =>
    quad (polarToCartesian g.columns (Rad.ofFrac g.openingRadius) i g.pocketBottom)
      (polarToCartesian g.columns (Rad.ofFrac g.openingRadius) (i + 1) g.pocketBottom)
      (polarToCartesian g.columns (Rad.ofFrac g.openingRadius) (i + 1) g.domeTop)
      (polarToCartesian g.columns (Rad.ofFrac g.openingRadius) i g.domeTop) ++
    quad (polarToCartesian g.columns (Rad.ofFrac g.openingRadius) i g.pocketBottom)
      (polarToCartesian g.columns (Rad.ofFrac g.innerHoleRadius) i g.pocketBottom)
      (polarToCartesian g.columns (Rad.ofFrac g.innerHoleRadius) (i + 1) g.pocketBottom)
      (polarToCartesian g.columns (Rad.ofFrac g.openingRadius) (i + 1) g.pocketBottom))

/-- Flat annulus closing the dome top (sixth loop of the source). -/
def topAnnulusTris (g : Geo) : List Tri :=
  (List.range g.columns).flatMap (fun i =>
    quad (polarToCartesian g.columns (Rad.ofFrac g.domeOuterTopRadius) i g.domeTop)
      (polarToCartesian g.columns (Rad.ofFrac g.openingRadius) i g.domeTop)
      (polarToCartesian g.columns (Rad.ofFrac g.openingRadius) (i + 1) g.domeTop)
      (polarToCartesian g.columns (Rad.ofFrac g.domeOuterTopRadius) (i + 1) g.domeTop))

/-- The full triangle list of `generateGeometry`, in emission order. -/
def generateGeometryList (cutout : CutoutMask) (params : GeometryParams) : List Tri :=
  let g := mkGeo cutout params
  baseTris g cutout ++ wallTris g cutout ++ domeOuterTris g ++ domeInnerTris g ++
    pocketLipTris g ++ topAnnulusTris g

/-- Source `generateGeometry`, with its resolution guard. -/
def generateGeometry (cutout : CutoutMask) (params : GeometryParams) :
    Except String (List Tri) :=
  if cutout.columns < 3 ∨ cutout.rows < 3 then
    .error "Cutout mask resolution must be at least 3x3."
  else .ok (generateGeometryList cutout params)

/-- All vertex references of a mesh, in order. -/
def vertList (ts : List Tri) : List PolarPt := ts.flatMap (fun t => [t.v1, t.v2, t.v3])

/-- The distinct vertex keys of a mesh: sorted by code, adjacent duplicates
removed. -/
def keyList (ts : List Tri) : List PolarPt :=
  dedupAdj [] (tsort (fun p q => decide (ptCode p ≤ ptCode q))
    (tlen 0 (vertList ts)) (vertList ts))

theorem keyList_complete {ts : List Tri} {p : PolarPt} (h : p ∈ vertList ts) :
    p ∈ keyList ts := by
  unfold keyList
  rw [dedupAdj_mem]
  right
  exact tsort_mem.mpr h

/-- Whole-mesh separation check: all distinct vertex keys of the mesh are
pairwise separated. -/
def meshSep (cols : Nat) (ts : List Tri) : Bool := sepOK cols (keyList ts)

/-- A checked mesh embeds its symbolic vertex keys injectively into real
cartesian space: symbolic key identity coincides with coincidence of the
real coordinates, which is what justifies running the edge-count histogram
on symbolic keys. -/
theorem meshSep_inj {cols : Nat} {ts : List Tri} (h : meshSep cols ts = true) :
    ∀ p ∈ vertList ts, ∀ q ∈ vertList ts,
      interpPt (fun a => (a.n : ℝ) / (a.d : ℝ)) Real.cos Real.sin cols p
        = interpPt (fun a => (a.n : ℝ) / (a.d : ℝ)) Real.cos Real.sin cols q →
      p = q :=
  fun p hp q hq heq =>
    sepOK_inj h p (keyList_complete hp) q (keyList_complete hq) heq

/-!
Embedding of the serializer half of `src/src/lib/stl-generator.ts`.

The serializer consumes numeric (cartesian) triangles.  Its scalar type and
numeric operations are abstract parameters, so the definitions stay
executable while theorems may instantiate the scalars with the real numbers
(`Real.sqrt` for `Math.sqrt`, a classical comparison for `length > 0`, and
an abstract 4-byte float32 encoder for `DataView.setFloat32`). -/

structure Vec3R (α : Type) where
  x : α
  y : α
  z : α
deriving DecidableEq

structure TriR (α : Type) where
  v1 : Vec3R α
  v2 : Vec3R α
  v3 : Vec3R α
deriving DecidableEq

/-- The numeric operations the serializer applies to its scalars. -/
structure NumOps (α : Type) where
  add : α → α → α
  sub : α → α → α
  mul : α → α → α
  div : α → α → α
  sqrt : α → α
  zero : α
  ltb : α → α → Bool

/-- Source `calculateNormal`: the cross product of the two edge vectors from
`v1`, normalized only when its length is strictly positive; a zero cross
product (degenerate triangle) is returned unchanged, i.e. as the zero
vector. -/
def calculateNormal {α : Type} (ops : NumOps α) (v1 v2 v3 : Vec3R α) : Vec3R α :=
  let u := Vec3R.mk (ops.sub v2.x v1.x) (ops.sub v2.y v1.y) (ops.sub v2.z v1.z)
  let v := Vec3R.mk (ops.sub v3.x v1.x) (ops.sub v3.y v1.y) (ops.sub v3.z v1.z)
  let nx := ops.sub (ops.mul u.y v.z) (ops.mul u.z v.y)
  let ny := ops.sub (ops.mul u.z v.x) (ops.mul u.x v.z)
  let nz := ops.sub (ops.mul u.x v.y) (ops.mul u.y v.x)
  let length := ops.sqrt (ops.add (ops.add (ops.mul nx nx) (ops.mul ny ny)) (ops.mul nz nz))
  if ops.ltb ops.zero length then
    Vec3R.mk (ops.div nx length) (ops.div ny length) (ops.div nz length)
  else Vec3R.mk nx ny nz

/-- The four bytes one `setFloat32` call writes, via the abstract encoder. -/
def word {α : Type} (enc : α → Fin 4 → Nat) (v : α) : List Nat :=
  [enc v 0, enc v 1, enc v 2, enc v 3]

/-- Source `writeVector3`: three little-endian float32 values. -/
def writeVector3 {α : Type} (enc : α → Fin 4 → Nat) (v : Vec3R α) : List Nat :=
  word enc v.x ++ word enc v.y ++ word enc v.z

/-- The four little-endian bytes of `setUint32` (which stores the value
modulo 2^32). -/
def u32le (n : Nat) : List Nat :=
  [n % 256, n / 256 % 256, n / 65536 % 256, n / 16777216 % 256]

/-- Little-endian read-back of a 4-byte word. -/
def decodeU32 (bs : List Nat) : Nat :=
  bs.getD 0 0 + 256 * bs.getD 1 0 + 65536 * bs.getD 2 0 + 16777216 * bs.getD 3 0

/-- The 80-byte header: the fixed ASCII banner, zero padded (a fresh
`ArrayBuffer` is zero initialized). -/
def stlHeader : List Nat :=
  let hb := "Binary STL generated by Shadecaster".toList.map Char.toNat
  hb.take 80 ++ List.replicate (80 - hb.length) 0

/-- The 50-byte record of one triangle: 12 bytes of normal, 36 bytes of
vertices, 2 attribute bytes that are always zero. -/
def triRecord {α : Type} (ops : NumOps α) (enc : α → Fin 4 → Nat) (t : TriR α) :
    List Nat :=
  (writeVector3 enc (calculateNormal ops t.v1 t.v2 t.v3) ++
    writeVector3 enc t.v1 ++ writeVector3 enc t.v2 ++ writeVector3 enc t.v3) ++ [0, 0]

/-- Source `generateSTL`: 80-byte header, 4-byte little-endian triangle
count, then one 50-byte record per triangle. -/
def generateSTL {α : Type} (ops : NumOps α) (enc : α → Fin 4 → Nat)
    (tris : List (TriR α)) : List Nat :=
  stlHeader ++ u32le tris.length ++ tris.flatMap (triRecord ops enc)

theorem stlHeader_length : stlHeader.length = 80 := by decide

theorem writeVector3_length {α : Type} (enc : α → Fin 4 → Nat) (v : Vec3R α) :
    (writeVector3 enc v).length = 12 := rfl

theorem triRecord_length {α : Type} (ops : NumOps α) (enc : α → Fin 4 → Nat)
    (t : TriR α) : (triRecord ops enc t).length = 50 := by
  simp [triRecord, writeVector3, word]

theorem flatMap_const_length {β : Type} (f : β → List Nat) (n : Nat)
    (h : ∀ t, (f t).length = n) : ∀ l : List β, (l.flatMap f).length = n * l.length := by
  intro l
  induction l with
  | nil => simp
  | cons x xs ih =>
    simp [List.flatMap_cons, h, ih, Nat.mul_succ, Nat.mul_add]
    ring

theorem flatMap_drop {β : Type} (f : β → List Nat) (n : Nat)
    (h : ∀ t, (f t).length = n) :
    ∀ (l : List β) (i : Nat), (l.flatMap f).drop (n * i) = (l.drop i).flatMap f := by
  intro l
  induction l with
  | nil => intro i; simp
  | cons x xs ih =>
    intro i
    match i with
    | 0 => simp
    | i + 1 =>
      rw [List.flatMap_cons, Nat.mul_succ, Nat.add_comm (n * i) n, ← List.drop_drop]
      rw [show (f x ++ xs.flatMap f).drop n = xs.flatMap f by
        rw [← h x]; exact List.drop_left _ _]
      rw [ih i]
      simp

theorem decodeU32_u32le (n : Nat) : decodeU32 (u32le n) = n % 4294967296 := by
  show n % 256 + 256 * (n / 256 % 256) + 65536 * (n / 65536 % 256)
    + 16777216 * (n / 16777216 % 256) = n % 4294967296
  omega

theorem generateSTL_length {α : Type} (ops : NumOps α) (enc : α → Fin 4 → Nat)
    (tris : List (TriR α)) :
    (generateSTL ops enc tris).length = 84 + 50 * tris.length := by
  simp only [generateSTL, List.length_append, stlHeader_length,
    flatMap_const_length (triRecord ops enc) 50 (triRecord_length ops enc) tris]
  simp [u32le]

theorem generateSTL_count_field {α : Type} (ops : NumOps α) (enc : α → Fin 4 → Nat)
    (tris : List (TriR α)) :
    ((generateSTL ops enc tris).drop 80).take 4 = u32le tris.length := by
  unfold generateSTL
  rw [List.append_assoc, show (80 : Nat) = stlHeader.length from stlHeader_length.symm,
    List.drop_left]
  rw [show (4 : Nat) = (u32le tris.length).length from rfl, List.take_left]

theorem generateSTL_attribute {α : Type} (ops : NumOps α) (enc : α → Fin 4 → Nat)
    (tris : List (TriR α)) :
    ∀ i, i < tris.length →
      ((generateSTL ops enc tris).drop (84 + 50 * i + 48)).take 2 = [0, 0] := by
  intro i hi
  have hdrop84 : (generateSTL ops enc tris).drop 84 = tris.flatMap (triRecord ops enc) := by
    unfold generateSTL
    rw [show (84 : Nat) = (stlHeader ++ u32le tris.length).length by
      simp [stlHeader_length, u32le], List.drop_left]
  have h1 : (generateSTL ops enc tris).drop (84 + 50 * i + 48)
      = ((tris.flatMap (triRecord ops enc)).drop (50 * i)).drop 48 := by
    rw [← hdrop84, List.drop_drop, List.drop_drop]
    ring_nf
  rw [h1, flatMap_drop (triRecord ops enc) 50 (triRecord_length ops enc)]
  have hcons : tris.drop i = tris.get ⟨i, hi⟩ :: tris.drop (i + 1) :=
    List.drop_eq_getElem_cons hi
  rw [hcons, List.flatMap_cons]
  unfold triRecord
  rw [List.append_assoc]
  rw [show (48 : Nat) = (writeVector3 enc (calculateNormal ops (tris.get ⟨i, hi⟩).v1
      (tris.get ⟨i, hi⟩).v2 (tris.get ⟨i, hi⟩).v3) ++
      writeVector3 enc (tris.get ⟨i, hi⟩).v1 ++ writeVector3 enc (tris.get ⟨i, hi⟩).v2 ++
      writeVector3 enc (tris.get ⟨i, hi⟩).v3).length by simp [writeVector3, word]]
  rw [List.drop_left]
  rfl

/-!
Embedding of `formatStlNumber` and the ASCII serializer.

`value.toFixed(6)` is modelled by the ECMAScript algorithm on exact
fractions: the sign is taken from the value, and the magnitude is scaled by
10^6 and rounded to the nearest integer, ties away from zero resolved
upward (the "larger n" rule).  The trailing-zero regex
`replace(/\.?0+$/, "")` strips the maximal trailing zero run of the
six fraction digits together with the decimal point when the whole fraction
is zero (the point always separates it from the integer digits, so integer
digits are never stripped); this is performed here directly on the digit
lists.  A fraction has no negative zero, so the `Object.is(value, -0)`
branch cannot fire and the guard reduces to the 1e-10 test; values in
[1e-10, 5e-7) round to magnitude zero with a negative sign preserved,
producing the literal "-0" exactly as the source does. -/

/-- Decimal digits of a natural number, most significant first, by fueled
division. -/
def digitsF : Nat → Nat → List Nat
  | 0, _ => []
  | fuel + 1, n => if n < 10 then [n] else digitsF fuel (n / 10) ++ [n % 10]

/-- Decimal digits, most significant first (`[0]` for zero). -/
def natDigits (n : Nat) : List Nat := digitsF (n + 1) n

/-- Digit list to characters. -/
def digitChars (ds : List Nat) : List Char := ds.map (fun d => Char.ofNat (48 + d))

/-- Drop trailing zero digits. -/
def dropTrailingZeros (ds : List Nat) : List Nat :=
  (ds.reverse.dropWhile (fun d => d = 0)).reverse

/-- Source `formatStlNumber` on an exact fraction. -/
def formatStlNumber (v : Frac) : String :=
  if Frac.lt (Frac.abs v) ⟨1, 10000000000⟩ then "0"
  else
    let neg := decide (v.n < 0)
    let mag := Frac.abs v
    let n : Int := Frac.floor (Frac.add (Frac.mul mag ⟨1000000, 1⟩) ⟨1, 2⟩)
    let nn : Nat := n.toNat
    let ip := nn / 1000000
    let fp := nn % 1000000
    let fpDigits := List.replicate (6 - (natDigits fp).length) 0 ++ natDigits fp
    let stripped := dropTrailingZeros fpDigits
    String.mk ((if neg then [Char.ofNat 45] else []) ++ digitChars (natDigits ip) ++
      (if stripped.isEmpty then [] else Char.ofNat 46 :: digitChars stripped))

/-- Decimal-literal grammar used to state well-formedness of the emitted
numeric fields (written from the claim, independently of the construction):
optional minus sign, a nonempty integer digit sequence without a spurious
leading zero, and an optional nonempty fraction part that does not end in
a zero digit. -/
def isDigitChar (c : Char) : Bool := decide (48 ≤ c.toNat) && decide (c.toNat ≤ 57)

def wfFracPart : List Char → Bool
  | [] => false
  | [c] => isDigitChar c && decide (c ≠ Char.ofNat 48)
  | c :: rest => isDigitChar c && wfFracPart rest

def wfIntRest : List Char → Bool
  | [] => true
  | c :: rest =>
    if c = Char.ofNat 46 then wfFracPart rest
    else isDigitChar c && wfIntRest rest

def wfUnsigned : List Char → Bool
  | [] => false
  | c :: rest =>
    if c = Char.ofNat 48 then
      match rest with
      | [] => true
      | d :: fr => d = Char.ofNat 46 && wfFracPart fr
    else isDigitChar c && wfIntRest rest

/-- Well-formed decimal literal (with optional sign). -/
def wellFormedNumeric (s : String) : Bool :=
  match s.toList with
  | [] => false
  | c :: rest =>
    if c = Char.ofNat 45 then wfUnsigned rest
    else wfUnsigned (c :: rest)

theorem digitsF_lt10 : ∀ (fuel n : Nat), ∀ d ∈ digitsF fuel n, d < 10 := by
  intro fuel
  induction fuel with
  | zero => intro n d hd; simp [digitsF] at hd
  | succ fuel ih =>
    intro n d hd
    simp only [digitsF] at hd
    by_cases h : n < 10
    · rw [if_pos h] at hd
      simp at hd
      omega
    · rw [if_neg h] at hd
      rcases List.mem_append.mp hd with h1 | h2
      · exact ih _ d h1
      · simp at h2
        omega

theorem digitsF_ne_nil : ∀ (fuel n : Nat), 0 < fuel → digitsF fuel n ≠ [] := by
  intro fuel n hf
  match fuel, hf with
  | fuel + 1, _ =>
    simp only [digitsF]
    by_cases h : n < 10
    · rw [if_pos h]; simp
    · rw [if_neg h]; simp

theorem digitsF_head_ne_zero : ∀ (fuel n : Nat), n ≠ 0 → n ≤ fuel →
    ∃ d ds, digitsF fuel n = d :: ds ∧ d ≠ 0 := by
  intro fuel
  induction fuel with
  | zero => intro n hn hf; omega
  | succ fuel ih =>
    intro n hn hf
    simp only [digitsF]
    by_cases h : n < 10
    · rw [if_pos h]
      exact ⟨n, [], rfl, hn⟩
    · rw [if_neg h]
      have h10 : n / 10 ≠ 0 := by omega
      have hle : n / 10 ≤ fuel := by
        have := Nat.div_lt_self (by omega : 0 < n) (by norm_num : 1 < 10)
        omega
      obtain ⟨d, ds, heq, hd⟩ := ih (n / 10) h10 hle
      exact ⟨d, ds ++ [n % 10], by rw [heq]; rfl, hd⟩

theorem natDigits_lt10 (n : Nat) : ∀ d ∈ natDigits n, d < 10 :=
  digitsF_lt10 (n + 1) n

theorem natDigits_ne_nil (n : Nat) : natDigits n ≠ [] :=
  digitsF_ne_nil (n + 1) n (Nat.succ_pos n)

theorem natDigits_head_ne_zero (n : Nat) (hn : n ≠ 0) :
    ∃ d ds, natDigits n = d :: ds ∧ d ≠ 0 :=
  digitsF_head_ne_zero (n + 1) n hn (Nat.le_succ n)

theorem dropTrailingZeros_mem {ds : List Nat} {d : Nat}
    (h : d ∈ dropTrailingZeros ds) : d ∈ ds := by
  unfold dropTrailingZeros at h
  rw [List.mem_reverse] at h
  have := List.dropWhile_sublist (l := ds.reverse) (p := fun d => d = 0)
  have hmem := this.mem h
  rwa [List.mem_reverse] at hmem

theorem dropWhile_head_not {p : Nat → Bool} :
    ∀ (l : List Nat), l.dropWhile p = [] ∨
      ∃ d ds, l.dropWhile p = d :: ds ∧ p d = false := by
  intro l
  induction l with
  | nil => left; rfl
  | cons x xs ih =>
    by_cases h : p x = true
    · rw [List.dropWhile_cons_of_pos h]
      exact ih
    · right
      refine ⟨x, xs, ?_, by simpa using h⟩
      rw [List.dropWhile_cons_of_neg (by simpa using h)]

theorem dropTrailingZeros_last {ds : List Nat} :
    dropTrailingZeros ds = [] ∨
      ∃ init d, dropTrailingZeros ds = init ++ [d] ∧ d ≠ 0 := by
  unfold dropTrailingZeros
  rcases dropWhile_head_not (p := fun d => d = 0) ds.reverse with h | ⟨d, rest, heq, hd⟩
  · left; rw [h]; rfl
  · right
    refine ⟨rest.reverse, d, ?_, by simpa using hd⟩
    rw [heq]
    simp

theorem digitChar_facts (d : Nat) (h : d < 10) :
    isDigitChar (Char.ofNat (48 + d)) = true ∧
    Char.ofNat (48 + d) ≠ Char.ofNat 46 ∧
    Char.ofNat (48 + d) ≠ Char.ofNat 45 ∧
    (d ≠ 0 → Char.ofNat (48 + d) ≠ Char.ofNat 48) := by
  interval_cases d <;>
    exact ⟨by decide, by decide, by decide, fun h2 => by first | decide | exact absurd rfl h2⟩

theorem wfIntRest_digits : ∀ (ds : List Nat), (∀ d ∈ ds, d < 10) →
    ∀ rest, wfIntRest (digitChars ds ++ rest) = wfIntRest rest := by
  intro ds
  induction ds with
  | nil => intro _ rest; rfl
  | cons d ds ih =>
    intro hlt rest
    have hd : d < 10 := hlt d (List.mem_cons_self d ds)
    obtain ⟨hdig, hdot, -, -⟩ := digitChar_facts d hd
    show wfIntRest (Char.ofNat (48 + d) :: (digitChars ds ++ rest)) = _
    rw [wfIntRest]
    rw [if_neg hdot]
    rw [hdig, ih (fun x hx => hlt x (List.mem_cons_of_mem d hx)) rest]
    simp

theorem wfFracPart_digits : ∀ (init : List Nat) (d : Nat), (∀ x ∈ init, x < 10) →
    d < 10 → d ≠ 0 → wfFracPart (digitChars (init ++ [d])) = true := by
  intro init
  induction init with
  | nil =>
    intro d _ hd hd0
    obtain ⟨hdig, -, -, h48⟩ := digitChar_facts d hd
    show wfFracPart [Char.ofNat (48 + d)] = true
    rw [wfFracPart]
    rw [hdig]
    simp only [Bool.true_and, decide_eq_true_eq]
    exact h48 hd0
  | cons x xs ih =>
    intro d hlt hd hd0
    have hx : x < 10 := hlt x (List.mem_cons_self x xs)
    obtain ⟨hdig, -, -, -⟩ := digitChar_facts x hx
    have hne : digitChars (xs ++ [d]) ≠ [] := by
      simp [digitChars]
    show wfFracPart (Char.ofNat (48 + x) :: digitChars (xs ++ [d])) = true
    match hcs : digitChars (xs ++ [d]), hne with
    | c :: cs, _ =>
      rw [wfFracPart]
      · rw [hdig, ← hcs, ih d (fun y hy => hlt y (List.mem_cons_of_mem x hy)) hd hd0]
        rfl
      · simp
/-- Abbreviation for the scaled-and-rounded magnitude in `formatStlNumber`. -/
def fsnNat (v : Frac) : Nat :=
  (Frac.floor (Frac.add (Frac.mul (Frac.abs v) ⟨1000000, 1⟩) ⟨1, 2⟩)).toNat

/-- Abbreviation for the stripped fraction digits in `formatStlNumber`. -/
def fsnStripped (v : Frac) : List Nat :=
  dropTrailingZeros (List.replicate (6 - (natDigits (fsnNat v % 1000000)).length) 0 ++
    natDigits (fsnNat v % 1000000))

theorem formatStlNumber_else (v : Frac)
    (h : ¬ Frac.lt (Frac.abs v) ⟨1, 10000000000⟩) :
    formatStlNumber v = String.mk
      ((if decide (v.n < 0) = true then [Char.ofNat 45] else []) ++
        digitChars (natDigits (fsnNat v / 1000000)) ++
        (if (fsnStripped v).isEmpty then []
         else Char.ofNat 46 :: digitChars (fsnStripped v))) := by
  unfold formatStlNumber
  rw [if_neg h]
  rfl

theorem fsnStripped_lt10 (v : Frac) : ∀ d ∈ fsnStripped v, d < 10 := by
  intro d hd
  unfold fsnStripped at hd
  have hmem := dropTrailingZeros_mem hd
  rcases List.mem_append.mp hmem with h1 | h2
  · have := List.eq_of_mem_replicate h1
    omega
  · exact natDigits_lt10 _ d h2

theorem fsnStripped_last (v : Frac) :
    fsnStripped v = [] ∨ ∃ init d, fsnStripped v = init ++ [d] ∧ d ≠ 0 := by
  unfold fsnStripped
  exact dropTrailingZeros_last

theorem wfUnsigned_cons_ne (c : Char) (rest : List Char) (h : c ≠ Char.ofNat 48) :
    wfUnsigned (c :: rest) = (isDigitChar c && wfIntRest rest) := by
  rw [wfUnsigned.eq_def]
  exact if_neg h

theorem wfUnsigned_zero_dot (fr : List Char) :
    wfUnsigned (Char.ofNat 48 :: Char.ofNat 46 :: fr) = wfFracPart fr := by
  rw [wfUnsigned.eq_def]
  show (decide (Char.ofNat 46 = Char.ofNat 46) && wfFracPart fr) = wfFracPart fr
  simp

theorem wfUnsigned_zero_nil : wfUnsigned [Char.ofNat 48] = true := by
  decide

theorem wfIntRest_dot (fr : List Char) :
    wfIntRest (Char.ofNat 46 :: fr) = wfFracPart fr := by
  rw [wfIntRest.eq_def]
  exact if_pos rfl

theorem wellFormedNumeric_mk (c : Char) (l : List Char) :
    wellFormedNumeric (String.mk (c :: l)) =
      (if c = Char.ofNat 45 then wfUnsigned l else wfUnsigned (c :: l)) := by
  rw [wellFormedNumeric.eq_def]
  rfl

theorem stringMk_cons_ne_empty (c : Char) (l : List Char) : String.mk (c :: l) ≠ "" := by
  intro hc
  have h2 : (c :: l) = ([] : List Char) := congrArg String.toList hc
  exact List.cons_ne_nil _ _ h2

theorem wfUnsigned_render (ip : Nat) (stripped : List Nat)
    (hstrip : stripped = [] ∨ ∃ init d, stripped = init ++ [d] ∧ d ≠ 0)
    (hlt : ∀ d ∈ stripped, d < 10) :
    wfUnsigned (digitChars (natDigits ip) ++
      (if stripped.isEmpty then [] else Char.ofNat 46 :: digitChars stripped)) = true := by
  have hfrac : stripped.isEmpty = false → wfFracPart (digitChars stripped) = true := by
    intro hne
    rcases hstrip with h | ⟨init, d, heq, hd⟩
    · rw [h] at hne; simp at hne
    · rw [heq]
      apply wfFracPart_digits init d
      · intro x hx
        exact hlt x (by rw [heq]; exact List.mem_append_left _ hx)
      · exact hlt d (by
          rw [heq]; exact List.mem_append_right _ (List.mem_singleton.mpr rfl))
      · exact hd
  by_cases hip : ip = 0
  · subst hip
    show wfUnsigned (Char.ofNat 48 ::
      (if stripped.isEmpty then [] else Char.ofNat 46 :: digitChars stripped)) = true
    by_cases hs : stripped.isEmpty
    · rw [if_pos hs]
      exact wfUnsigned_zero_nil
    · rw [if_neg hs]
      rw [wfUnsigned_zero_dot]
      exact hfrac (by simpa using hs)
  · obtain ⟨d, ds, heq, hd0⟩ := natDigits_head_ne_zero ip hip
    have hall := natDigits_lt10 ip
    rw [heq] at hall
    have hd : d < 10 := hall d (List.mem_cons_self d ds)
    obtain ⟨hdig, -, -, h48⟩ := digitChar_facts d hd
    rw [heq]
    show wfUnsigned (Char.ofNat (48 + d) ::
      (digitChars ds ++ (if stripped.isEmpty then []
        else Char.ofNat 46 :: digitChars stripped))) = true
    rw [wfUnsigned_cons_ne _ _ (h48 hd0)]
    rw [hdig, wfIntRest_digits ds (fun x hx => hall x (List.mem_cons_of_mem d hx))]
    by_cases hs : stripped.isEmpty
    · rw [if_pos hs]
      rfl
    · rw [if_neg hs]
      rw [wfIntRest_dot, hfrac (by simpa using hs)]
      rfl

theorem wellFormedNumeric_render (neg : Bool) (ip : Nat) (stripped : List Nat)
    (hstrip : stripped = [] ∨ ∃ init d, stripped = init ++ [d] ∧ d ≠ 0)
    (hlt : ∀ d ∈ stripped, d < 10) :
    wellFormedNumeric (String.mk ((if neg = true then [Char.ofNat 45] else []) ++
      digitChars (natDigits ip) ++
      (if stripped.isEmpty then [] else Char.ofNat 46 :: digitChars stripped))) = true ∧
    String.mk ((if neg = true then [Char.ofNat 45] else []) ++
      digitChars (natDigits ip) ++
      (if stripped.isEmpty then [] else Char.ofNat 46 :: digitChars stripped)) ≠ "" := by
  have hwfu := wfUnsigned_render ip stripped hstrip hlt
  obtain ⟨d, ds, heq⟩ : ∃ d ds, natDigits ip = d :: ds := by
    rcases hni : natDigits ip with _ | ⟨d, ds⟩
    · exact absurd hni (natDigits_ne_nil ip)
    · exact ⟨d, ds, rfl⟩
  have hall := natDigits_lt10 ip
  rw [heq] at hall
  have hd : d < 10 := hall d (List.mem_cons_self d ds)
  obtain ⟨-, -, h45, -⟩ := digitChar_facts d hd
  cases neg with
  | true =>
    constructor
    · show wellFormedNumeric (String.mk (Char.ofNat 45 ::
        (digitChars (natDigits ip) ++
          (if stripped.isEmpty then [] else Char.ofNat 46 :: digitChars stripped)))) = true
      rw [wellFormedNumeric_mk]
      rw [if_pos rfl]
      exact hwfu
    · exact stringMk_cons_ne_empty _ _
  | false =>
    rw [heq]
    constructor
    · show wellFormedNumeric (String.mk (Char.ofNat (48 + d) ::
        (digitChars ds ++
          (if stripped.isEmpty then [] else Char.ofNat 46 :: digitChars stripped)))) = true
      rw [wellFormedNumeric_mk]
      rw [if_neg h45]
      rw [heq] at hwfu
      exact hwfu
    · exact stringMk_cons_ne_empty _ _

theorem formatStlNumber_near_zero (v : Frac)
    (h : Frac.lt (Frac.abs v) ⟨1, 10000000000⟩) : formatStlNumber v = "0" := by
  unfold formatStlNumber
  rw [if_pos h]

theorem formatStlNumber_wf (v : Frac) :
    wellFormedNumeric (formatStlNumber v) = true ∧ formatStlNumber v ≠ "" := by
  by_cases h : Frac.lt (Frac.abs v) ⟨1, 10000000000⟩
  · rw [formatStlNumber_near_zero v h]
    exact ⟨by decide, by decide⟩
  · rw [formatStlNumber_else v h]
    exact wellFormedNumeric_render (decide (v.n < 0)) (fsnNat v / 1000000) (fsnStripped v)
      (fsnStripped_last v) (fsnStripped_lt10 v)

def generateAsciiSTL {α : Type} (ops : NumOps α) (fmt : α → String)
    (tris : List (TriR α)) : String :=
  let lines := ["solid shadecaster"] ++
    tris.flatMap (fun t =>
      let normal := calculateNormal ops t.v1 t.v2 t.v3
      ["  facet normal " ++ fmt normal.x ++ " " ++ fmt normal.y ++ " " ++ fmt normal.z,
       "    outer loop",
       "      vertex " ++ fmt t.v1.x ++ " " ++ fmt t.v1.y ++ " " ++ fmt t.v1.z,
       "      vertex " ++ fmt t.v2.x ++ " " ++ fmt t.v2.y ++ " " ++ fmt t.v2.z,
       "      vertex " ++ fmt t.v3.x ++ " " ++ fmt t.v3.y ++ " " ++ fmt t.v3.z,
       "    endloop",
       "  endfacet"]) ++
    ["endsolid shadecaster"]
  String.intercalate "\n" lines ++ "\n"

/-- The two export payload shapes (the source wraps them in a Blob of media
type `application/sla`; the wrapper carries no further data). -/
inductive STLOut : Type where
  | binary (bytes : List Nat)
  | ascii (text : String)
deriving DecidableEq

/-- Source `exportSTL`: validate, generate the mesh, then serialize in the
requested format.  `toNum` is the cartesian evaluation of the symbolic
vertices (the float computation of `polarToCartesian`), abstract here. -/
def exportSTL {α : Type} (ops : NumOps α) (enc : α → Fin 4 → Nat)
    (toNum : Tri → TriR α) (fmt : α → String) (cutout : CutoutMask)
    (params : GeometryParams) (format : StlFormat) : Except String STLOut :=
  match validateGeometryParams params with
  | .error e => .error e
  | .ok _ =>
    match generateGeometry cutout params with
    | .error e => .error e
    | .ok tris =>
      match format with
      | .ascii => .ok (.ascii (generateAsciiSTL ops fmt (tris.map toNum)))
      | .binary => .ok (.binary (generateSTL ops enc (tris.map toNum)))

/-!
Concrete fixtures used by the claim theorems: a degenerate-lip cylinder
configuration (the tea-light opening radius collapses onto the inner hole
radius there) and the worked scenario of the specification (§8: dome 60/20,
wall 1.6/25, mount 38/16, 8 pillars), on a minimal 3×3 mask. -/

/-- An all-`b` mask grid. -/
def gridConst (r c : Nat) (b : Bool) : List (List Bool) :=
  (List.range r).map (fun _ => (List.range c).map (fun _ => b))

/-- A mask grid with a single `true` (cutout) cell. -/
def gridHole (r c hr hc : Nat) : List (List Bool) :=
  (List.range r).map (fun i => (List.range c).map (fun j => i = hr && j = hc))

def cylParams : GeometryParams :=
  { domeDiameter := ⟨40, 1⟩, domeHeight := ⟨30, 1⟩, wallThickness := ⟨10, 1⟩,
    wallHeight := ⟨30, 1⟩, ledMountDiameter := ⟨15, 1⟩, ledMountHeight := ⟨15, 1⟩,
    pillarCount := ⟨4, 1⟩ }

def cylMaskFull : CutoutMask := { data := gridConst 3 4 false, columns := 4, rows := 3 }

def cylMaskHole : CutoutMask := { data := gridHole 3 4 1 0, columns := 4, rows := 3 }

def scParams : GeometryParams :=
  { domeDiameter := ⟨60, 1⟩, domeHeight := ⟨20, 1⟩, wallThickness := ⟨8, 5⟩,
    wallHeight := ⟨25, 1⟩, ledMountDiameter := ⟨38, 1⟩, ledMountHeight := ⟨16, 1⟩,
    pillarCount := ⟨8, 1⟩ }

def scMaskFull : CutoutMask := { data := gridConst 3 3 false, columns := 3, rows := 3 }

def scMaskHole : CutoutMask := { data := gridHole 3 3 1 0, columns := 3, rows := 3 }

/-- The two ends of the degenerate lip edge of the cylinder configuration:
`openingRadius` and `innerHoleRadius` coincide there (both 10), so the lip
annulus quads collapse onto the pocket-wall quads. -/
def lipA : PolarPt := ⟨.rat ⟨10, 1⟩, 0, ⟨55, 1⟩⟩

def lipB : PolarPt := ⟨.rat ⟨10, 1⟩, 1, ⟨55, 1⟩⟩

/-- Trivial scalar instantiation for serializer witnesses. -/
def unitOps : NumOps Unit :=
  ⟨fun _ _ => (), fun _ _ => (), fun _ _ => (), fun _ _ => (), fun _ => (), (),
    fun _ _ => false⟩

def unitEnc : Unit → Fin 4 → Nat := fun _ _ => 0

def unitTri : TriR Unit := ⟨⟨(), (), ()⟩, ⟨(), (), ()⟩, ⟨(), (), ()⟩⟩

/-- The 50-byte record at index `i` of the binary serializer output is the
triangle record of the `i`-th input triangle. -/
theorem generateSTL_record {α : Type} (ops : NumOps α) (enc : α → Fin 4 → Nat)
    (tris : List (TriR α)) (i : Nat) (hi : i < tris.length) :
    ((generateSTL ops enc tris).drop (84 + 50 * i)).take 50
      = triRecord ops enc (tris.get ⟨i, hi⟩) := by
  have hdrop84 : (generateSTL ops enc tris).drop 84 = tris.flatMap (triRecord ops enc) := by
    unfold generateSTL
    rw [show (84 : Nat) = (stlHeader ++ u32le tris.length).length by
      simp [stlHeader_length, u32le], List.drop_left]
  have h1 : (generateSTL ops enc tris).drop (84 + 50 * i)
      = (tris.flatMap (triRecord ops enc)).drop (50 * i) := by
    rw [← hdrop84, List.drop_drop]
  rw [h1, flatMap_drop (triRecord ops enc) 50 (triRecord_length ops enc)]
  have hcons : tris.drop i = tris.get ⟨i, hi⟩ :: tris.drop (i + 1) :=
    List.drop_eq_getElem_cons hi
  rw [hcons, List.flatMap_cons]
  rw [show (50 : Nat) = (triRecord ops enc (tris.get ⟨i, hi⟩)).length from
    (triRecord_length ops enc _).symm]
  exact List.take_left _ _

/-!
The claim theorems.
-/

/-- C8: in the ASCII serializer every numeric field is rendered by
`formatStlNumber` (see `generateAsciiSTL`); for every input value, a
magnitude below 1e-10 yields the literal "0", and the rendered field is a
nonempty well-formed decimal literal (optional sign, integer digits without
a spurious leading zero, optional fraction part not ending in a zero digit —
i.e. six fixed decimals with the trailing zeros stripped). -/
theorem claim_C8 (v : Frac) :
    (Frac.lt (Frac.abs v) ⟨1, 10000000000⟩ → formatStlNumber v = "0") ∧
    wellFormedNumeric (formatStlNumber v) = true ∧ formatStlNumber v ≠ "" :=
  ⟨formatStlNumber_near_zero v, (formatStlNumber_wf v).1, (formatStlNumber_wf v).2⟩

/-- Witness for C8: 1/10^13 is normalized to "0"; -3/2 renders to a nonempty
well-formed literal (it is "-1.5"). -/
theorem claim_C8_witness :
    formatStlNumber ⟨1, 10000000000000⟩ = "0" ∧
    wellFormedNumeric (formatStlNumber ⟨-3, 2⟩) = true ∧ formatStlNumber ⟨-3, 2⟩ ≠ "" :=
  ⟨(claim_C8 ⟨1, 10000000000000⟩).1 (by decide),
    (claim_C8 ⟨-3, 2⟩).2.1, (claim_C8 ⟨-3, 2⟩).2.2⟩

/-- C4: the binary serializer emits exactly 84 + 50·N bytes for N input
triangles: an 80-byte header, then the 4 little-endian bytes of the count
(worth N once decoded, N fitting 32 bits), then per triangle the 50-byte
record `triRecord` (12 normal bytes, 36 vertex bytes, 2 attribute bytes),
whose attribute bytes are zero. -/
theorem claim_C4 {α : Type} (ops : NumOps α) (enc : α → Fin 4 → Nat)
    (tris : List (TriR α)) :
    (generateSTL ops enc tris).length = 84 + 50 * tris.length ∧
    ((generateSTL ops enc tris).drop 80).take 4 = u32le tris.length ∧
    decodeU32 (u32le tris.length) = tris.length % 4294967296 ∧
    ∀ i (hi : i < tris.length),
      ((generateSTL ops enc tris).drop (84 + 50 * i)).take 50
          = triRecord ops enc (tris.get ⟨i, hi⟩) ∧
      ((generateSTL ops enc tris).drop (84 + 50 * i + 48)).take 2 = [0, 0] :=
  ⟨generateSTL_length ops enc tris, generateSTL_count_field ops enc tris,
    decodeU32_u32le tris.length,
    fun i hi => ⟨generateSTL_record ops enc tris i hi,
      generateSTL_attribute ops enc tris i hi⟩⟩

/-- Witness for C4 at a one-triangle input over the trivial scalars: the
buffer length is 134 and the attribute bytes of record 0 are zero. -/
theorem claim_C4_witness :
    (generateSTL unitOps unitEnc [unitTri]).length = 84 + 50 * 1 ∧
    ((generateSTL unitOps unitEnc [unitTri]).drop (84 + 50 * 0 + 48)).take 2 = [0, 0] :=
  ⟨(claim_C4 unitOps unitEnc [unitTri]).1,
    ((claim_C4 unitOps unitEnc [unitTri]).2.2.2 0 (by decide)).2⟩

/-- C10: `exportSTL` is a pure function of its inputs — the embedding of the
source pipeline (validation, mesh generation, serialization) reads no clock,
randomness or retained state, so equal inputs give identical output bytes
(respectively characters). -/
theorem claim_C10 {α : Type} (ops : NumOps α) (enc : α → Fin 4 → Nat)
    (toNum : Tri → TriR α) (fmt : α → String) (c1 c2 : CutoutMask)
    (p1 p2 : GeometryParams) (f1 f2 : StlFormat)
    (hc : c1 = c2) (hp : p1 = p2) (hf : f1 = f2) :
    exportSTL ops enc toNum fmt c1 p1 f1 = exportSTL ops enc toNum fmt c2 p2 f2 := by
  subst hc
  subst hp
  subst hf
  rfl

/-- C7: over the real numbers (the float computation idealized as exact),
`calculateNormal` returns the normalized cross product of the two edge
vectors; a zero cross product is returned as the exact zero vector (the
`length > 0` guard fails), and otherwise the result is exactly unit length
(so within every positive float tolerance, in particular 1e-4).  The
comparison callback is abstract, constrained to decide `<`. -/
theorem claim_C7 (ltb : ℝ → ℝ → Bool) (hltb : ∀ a b : ℝ, ltb a b = true ↔ a < b)
    (v1 v2 v3 : Vec3R ℝ) (nx ny nz L : ℝ)
    (hnx : nx = (v2.y - v1.y) * (v3.z - v1.z) - (v2.z - v1.z) * (v3.y - v1.y))
    (hny : ny = (v2.z - v1.z) * (v3.x - v1.x) - (v2.x - v1.x) * (v3.z - v1.z))
    (hnz : nz = (v2.x - v1.x) * (v3.y - v1.y) - (v2.y - v1.y) * (v3.x - v1.x))
    (hL : L = Real.sqrt (nx * nx + ny * ny + nz * nz)) :
    (nx = 0 ∧ ny = 0 ∧ nz = 0 →
      calculateNormal ⟨fun a b => a + b, fun a b => a - b, fun a b => a * b,
        fun a b => a / b, Real.sqrt, 0, ltb⟩ v1 v2 v3 = ⟨0, 0, 0⟩) ∧
    (¬(nx = 0 ∧ ny = 0 ∧ nz = 0) →
      0 < L ∧
      calculateNormal ⟨fun a b => a + b, fun a b => a - b, fun a b => a * b,
        fun a b => a / b, Real.sqrt, 0, ltb⟩ v1 v2 v3 = ⟨nx / L, ny / L, nz / L⟩ ∧
      nx / L * (nx / L) + ny / L * (ny / L) + nz / L * (nz / L) = 1) := by
  have hcal : calculateNormal ⟨fun a b => a + b, fun a b => a - b, fun a b => a * b,
      fun a b => a / b, Real.sqrt, 0, ltb⟩ v1 v2 v3
      = if ltb 0 L = true then Vec3R.mk (nx / L) (ny / L) (nz / L)
        else Vec3R.mk nx ny nz := by
    subst hnx
    subst hny
    subst hnz
    subst hL
    rfl
  constructor
  · rintro ⟨h1, h2, h3⟩
    rw [hcal, if_neg]
    · rw [h1, h2, h3]
    · rw [hltb]
      rw [hL, h1, h2, h3]
      simp
  · intro hne
    have hs : 0 < nx * nx + ny * ny + nz * nz := by
      rcases lt_or_eq_of_le (add_nonneg (add_nonneg (mul_self_nonneg nx)
          (mul_self_nonneg ny)) (mul_self_nonneg nz))
        with h | h
      · exact h
      · exfalso
        apply hne
        have c1 : nx * nx = 0 := le_antisymm
          (by linarith [mul_self_nonneg ny, mul_self_nonneg nz]) (mul_self_nonneg nx)
        have c2 : ny * ny = 0 := le_antisymm
          (by linarith [mul_self_nonneg nx, mul_self_nonneg nz]) (mul_self_nonneg ny)
        have c3 : nz * nz = 0 := le_antisymm
          (by linarith [mul_self_nonneg nx, mul_self_nonneg ny]) (mul_self_nonneg nz)
        exact ⟨mul_self_eq_zero.mp c1, mul_self_eq_zero.mp c2, mul_self_eq_zero.mp c3⟩
    have hLpos : 0 < L := by
      rw [hL]
      exact Real.sqrt_pos.mpr hs
    refine ⟨hLpos, ?_, ?_⟩
    · rw [hcal, if_pos (by rw [hltb]; exact hLpos)]
    · have hLL : L * L = nx * nx + ny * ny + nz * nz := by
        rw [hL]
        exact Real.mul_self_sqrt hs.le
      have hLne : L ≠ 0 := ne_of_gt hLpos
      field_simp
      linarith [hLL]

/-- Witness for C7 at the right triangle (0,0,0), (1,0,0), (0,1,0): the
cross product is (0,0,1) of length 1, and the returned normal is its
normalization. -/
theorem claim_C7_witness :
    calculateNormal ⟨fun a b => a + b, fun a b => a - b, fun a b => a * b,
        fun a b => a / b, Real.sqrt, 0, fun a b : ℝ => decide (a < b)⟩
        (⟨0, 0, 0⟩ : Vec3R ℝ) ⟨1, 0, 0⟩ ⟨0, 1, 0⟩ = ⟨0 / 1, 0 / 1, 1 / 1⟩ :=
  ((claim_C7 (fun a b : ℝ => decide (a < b)) (fun a b => decide_eq_true_iff)
    ⟨0, 0, 0⟩ ⟨1, 0, 0⟩ ⟨0, 1, 0⟩ 0 0 1 1 (by norm_num) (by norm_num) (by norm_num)
    (by rw [show (0 : ℝ) * 0 + 0 * 0 + 1 * 1 = 1 by norm_num, Real.sqrt_one])).2
    (by norm_num)).2.1

/-- Zeta-expanded equation of `processImage`, shared by the error-path and
shape lemmas. -/
theorem processImage_unfold (img : ImageData) (params : ProcessingParams)
    (cosQ sinQ : Frac → Frac) :
    processImage img params cosQ sinQ =
      (if Frac.round params.angularResolution < 3 then
        .error "Angular resolution must be at least 3."
      else if img.width = 0 ∨ img.height = 0 then .error "Image has no data."
      else if !((toBinary img (clamp params.threshold ⟨0, 1⟩ ⟨255, 1⟩)).any
          (fun row => row.any id)) then
        .error "Image is all white/transparent. Please provide an image with dark silhouette content. Try lowering the threshold."
      else if !((toBinary img (clamp params.threshold ⟨0, 1⟩ ⟨255, 1⟩)).any
          (fun row => row.any (fun p => !p))) then
        .error "Image is all black. Please provide an image with a clear silhouette. Try raising the threshold."
      else
        (buildRadialMask img (clamp params.threshold ⟨0, 1⟩ ⟨255, 1⟩)
            (getMaskResolution (Frac.round params.angularResolution))
            (getMaskResolution (Frac.round params.angularResolution)) cosQ sinQ).map
          (fun data =>
            { data := data,
              columns := getMaskResolution (Frac.round params.angularResolution),
              rows := getMaskResolution (Frac.round params.angularResolution) })) := rfl

/-- The successful path of `processImage`, in closed form. -/
theorem processImage_ok_shape (img : ImageData) (params : ProcessingParams)
    (cosQ sinQ : Frac → Frac)
    (har : ¬ Frac.round params.angularResolution < 3)
    (hne : ¬(img.width = 0 ∨ img.height = 0))
    (hdark : (toBinary img (clamp params.threshold ⟨0, 1⟩ ⟨255, 1⟩)).any
      (fun row => row.any id) = true)
    (hlight : (toBinary img (clamp params.threshold ⟨0, 1⟩ ⟨255, 1⟩)).any
      (fun row => row.any (fun p => !p)) = true) :
    processImage img params cosQ sinQ = .ok
      { data := (List.range (getMaskResolution (Frac.round params.angularResolution))).map
          (fun row =>
            (List.range (getMaskResolution (Frac.round params.angularResolution))).map
              (fun col =>
                radialCell img (clamp params.threshold ⟨0, 1⟩ ⟨255, 1⟩)
                  (getMaskResolution (Frac.round params.angularResolution))
                  (getMaskResolution (Frac.round params.angularResolution))
                  cosQ sinQ row col)),
        columns := getMaskResolution (Frac.round params.angularResolution),
        rows := getMaskResolution (Frac.round params.angularResolution) } := by
  rw [processImage_unfold, if_neg har, if_neg hne, hdark, hlight]
  rw [if_neg (by decide), if_neg (by decide)]
  unfold buildRadialMask
  rw [if_neg (fun hcon => hne (Or.symm hcon))]
  rfl

/-- C9: the error paths of the image processor: a zero-dimension image fails
with "Image has no data."; a field with no dark pixel fails telling the user
to lower the threshold; a field with no light pixel fails telling the user to
raise it; and a field with both kinds of pixels reaches the mask-building
path and succeeds. -/
theorem claim_C9 (img : ImageData) (params : ProcessingParams)
    (cosQ sinQ : Frac → Frac)
    (har : ¬ Frac.round params.angularResolution < 3) :
    ((img.width = 0 ∨ img.height = 0) →
      processImage img params cosQ sinQ = .error "Image has no data.") ∧
    (¬(img.width = 0 ∨ img.height = 0) →
      (toBinary img (clamp params.threshold ⟨0, 1⟩ ⟨255, 1⟩)).any
        (fun row => row.any id) = false →
      processImage img params cosQ sinQ =
        .error "Image is all white/transparent. Please provide an image with dark silhouette content. Try lowering the threshold.") ∧
    (¬(img.width = 0 ∨ img.height = 0) →
      (toBinary img (clamp params.threshold ⟨0, 1⟩ ⟨255, 1⟩)).any
        (fun row => row.any id) = true →
      (toBinary img (clamp params.threshold ⟨0, 1⟩ ⟨255, 1⟩)).any
        (fun row => row.any (fun p => !p)) = false →
      processImage img params cosQ sinQ =
        .error "Image is all black. Please provide an image with a clear silhouette. Try raising the threshold.") ∧
    (¬(img.width = 0 ∨ img.height = 0) →
      (toBinary img (clamp params.threshold ⟨0, 1⟩ ⟨255, 1⟩)).any
        (fun row => row.any id) = true →
      (toBinary img (clamp params.threshold ⟨0, 1⟩ ⟨255, 1⟩)).any
        (fun row => row.any (fun p => !p)) = true →
      ∃ mask, processImage img params cosQ sinQ = .ok mask) := by
  refine ⟨fun h => ?_, fun hne hdark => ?_, fun hne hdark hlight => ?_,
    fun hne hdark hlight => ?_⟩
  · rw [processImage_unfold, if_neg har, if_pos h]
  · rw [processImage_unfold, if_neg har, if_neg hne, hdark]
    rfl
  · rw [processImage_unfold, if_neg har, if_neg hne, hdark, hlight]
    rfl
  · exact ⟨_, processImage_ok_shape img params cosQ sinQ har hne hdark hlight⟩

/-- Fixtures for the image-processor claims: the abstract trigonometric
callback (exactness of its values is irrelevant to these claims), four tiny
images and the default parameters. -/
def czero : Frac → Frac := fun _ => ⟨0, 1⟩

def imgEmpty : ImageData := ⟨0, 2, []⟩

def imgBlack : ImageData := ⟨1, 1, [0, 0, 0, 255]⟩

def imgWhite : ImageData := ⟨1, 1, [255, 255, 255, 255]⟩

def imgMixed : ImageData := ⟨2, 1, [0, 0, 0, 255, 255, 255, 255, 255]⟩

def prm20 : ProcessingParams := ⟨⟨20, 1⟩, ⟨128, 1⟩⟩

/-- Witness for C9: the four error/success paths at concrete images. -/
theorem claim_C9_witness :
    processImage imgEmpty prm20 czero czero = .error "Image has no data." ∧
    processImage imgWhite prm20 czero czero =
      .error "Image is all white/transparent. Please provide an image with dark silhouette content. Try lowering the threshold." ∧
    processImage imgBlack prm20 czero czero =
      .error "Image is all black. Please provide an image with a clear silhouette. Try raising the threshold." ∧
    ∃ mask, processImage imgMixed prm20 czero czero = .ok mask :=
  ⟨(claim_C9 imgEmpty prm20 czero czero (by decide)).1 (by decide),
    (claim_C9 imgWhite prm20 czero czero (by decide)).2.1 (by decide) (by decide),
    (claim_C9 imgBlack prm20 czero czero (by decide)).2.2.1 (by decide) (by decide)
      (by decide),
    (claim_C9 imgMixed prm20 czero czero (by decide)).2.2.2 (by decide) (by decide)
      (by decide)⟩

/-- C5 (amended): the mask a successful `processImage` returns has `columns`
and `rows` both equal to `getMaskResolution` of the rounded angular
resolution — NOT to the requested angular resolution itself — and its data
is exactly the radial resampling grid, with no row forced solid by the
resampler (the bottom/top forcing happens later, in the mesh builder's
`isSolid`). -/
theorem claim_C5 (img : ImageData) (params : ProcessingParams)
    (cosQ sinQ : Frac → Frac) (mask : CutoutMask)
    (h : processImage img params cosQ sinQ = .ok mask) :
    mask.columns = getMaskResolution (Frac.round params.angularResolution) ∧
    mask.rows = getMaskResolution (Frac.round params.angularResolution) ∧
    mask.data = (List.range mask.rows).map (fun row =>
      (List.range mask.columns).map (fun col =>
        radialCell img (clamp params.threshold ⟨0, 1⟩ ⟨255, 1⟩) mask.columns mask.rows
          cosQ sinQ row col)) := by
  rw [processImage_unfold] at h
  split at h
  · exact absurd h (by simp)
  · split at h
    · exact absurd h (by simp)
    · split at h
      · exact absurd h (by simp)
      · split at h
        · exact absurd h (by simp)
        · unfold buildRadialMask at h
          split at h
          · simp only [Except.map] at h
            exact absurd h (by simp)
          · simp only [Except.map] at h
            injection h with h2
            subst h2
            exact ⟨rfl, rfl, rfl⟩

/-- The mask `processImage` produces for the mixed two-pixel image at
requested angular resolution 20. -/
def maskMixed : CutoutMask :=
  ⟨(List.range 240).map (fun row =>
    (List.range 240).map (fun col =>
      radialCell imgMixed (clamp ⟨128, 1⟩ ⟨0, 1⟩ ⟨255, 1⟩) 240 240 czero czero row col)),
    240, 240⟩

theorem processImage_mixed : processImage imgMixed prm20 czero czero = .ok maskMixed :=
  processImage_ok_shape imgMixed prm20 czero czero (by decide) (by decide) (by decide)
    (by decide)

/-- Counterexample for C5: at requested angular resolution 20 the produced
mask has 240 columns (the resampler works at `getMaskResolution`, clamped to
[240, 720], not at the requested resolution), and its outermost row 0 is NOT
forced solid: cell (0,0) samples dark image content and is marked as a
cutout. -/
theorem claim_C5_counterexample :
    Frac.round prm20.angularResolution = 20 ∧
    processImage imgMixed prm20 czero czero = .ok maskMixed ∧
    maskMixed.columns = 240 ∧ maskMixed.rows = 240 ∧
    (maskMixed.data.getD 0 []).getD 0 false = true :=
  ⟨by decide, processImage_mixed, rfl, rfl, by decide⟩

/-- Witness for C5 at the mixed-image fixture. -/
theorem claim_C5_witness :
    maskMixed.columns = getMaskResolution (Frac.round prm20.angularResolution) ∧
    maskMixed.rows = getMaskResolution (Frac.round prm20.angularResolution) ∧
    maskMixed.data = (List.range maskMixed.rows).map (fun row =>
      (List.range maskMixed.columns).map (fun col =>
        radialCell imgMixed (clamp prm20.threshold ⟨0, 1⟩ ⟨255, 1⟩) maskMixed.columns
          maskMixed.rows czero czero row col)) :=
  claim_C5 imgMixed prm20 czero czero maskMixed processImage_mixed

/-!
Monotonicity of the radial mask in the threshold (claim C6): the sampled
gray value of a cell does not depend on the threshold, so a cell dark under
a low threshold stays dark under any higher one.  The comparisons are by
cross multiplication, so the transitivity step needs the denominators
positive; they are, by construction, whenever the trigonometric callbacks
return well-formed fractions. -/

theorem dpos_add {a b : Frac} (ha : 0 < a.d) (hb : 0 < b.d) : 0 < (Frac.add a b).d :=
  Nat.mul_pos ha hb

theorem dpos_sub {a b : Frac} (ha : 0 < a.d) (hb : 0 < b.d) : 0 < (Frac.sub a b).d :=
  Nat.mul_pos ha hb

theorem dpos_mul {a b : Frac} (ha : 0 < a.d) (hb : 0 < b.d) : 0 < (Frac.mul a b).d :=
  Nat.mul_pos ha hb

theorem dpos_div {a b : Frac} (ha : 0 < a.d) (hb : b.n ≠ 0) : 0 < (Frac.div a b).d := by
  unfold Frac.div
  split <;> exact Nat.mul_pos ha (Int.natAbs_pos.mpr hb)

theorem dpos_fmin {a b : Frac} (ha : 0 < a.d) (hb : 0 < b.d) : 0 < (Frac.fmin a b).d := by
  unfold Frac.fmin
  split
  · exact hb
  · exact ha

theorem dpos_fmax {a b : Frac} (ha : 0 < a.d) (hb : 0 < b.d) : 0 < (Frac.fmax a b).d := by
  unfold Frac.fmax
  split
  · exact hb
  · exact ha

theorem dpos_clamp {v lo hi : Frac} (hv : 0 < v.d) (hlo : 0 < lo.d) (hhi : 0 < hi.d) :
    0 < (clamp v lo hi).d :=
  dpos_fmin (dpos_fmax hv hlo) hhi

theorem dpos_samplePixel_gray (data : List Nat) (w x y : Nat) :
    0 < (samplePixel data w x y).gray.d :=
  Nat.succ_pos 999

theorem dpos_bilinear_gray (img : ImageData) {x y : Frac} (hx : 0 < x.d)
    (hy : 0 < y.d) : 0 < (sampleBilinear img x y).gray.d := by
  have hdx : 0 < (Frac.sub (clamp x ⟨0, 1⟩ ⟨(img.width : Int) - 1, 1⟩)
      (Frac.ofInt (Frac.floor (clamp x ⟨0, 1⟩ ⟨(img.width : Int) - 1, 1⟩)))).d :=
    dpos_sub (dpos_clamp hx (by decide) Nat.one_pos) Nat.one_pos
  have hdy : 0 < (Frac.sub (clamp y ⟨0, 1⟩ ⟨(img.height : Int) - 1, 1⟩)
      (Frac.ofInt (Frac.floor (clamp y ⟨0, 1⟩ ⟨(img.height : Int) - 1, 1⟩)))).d :=
    dpos_sub (dpos_clamp hy (by decide) Nat.one_pos) Nat.one_pos
  exact dpos_add
    (dpos_add
      (dpos_mul (dpos_samplePixel_gray _ _ _ _)
        (dpos_mul (dpos_sub (by decide) hdx) (dpos_sub (by decide) hdy)))
      (dpos_mul (dpos_samplePixel_gray _ _ _ _)
        (dpos_mul hdx (dpos_sub (by decide) hdy))))
    (dpos_add
      (dpos_mul (dpos_samplePixel_gray _ _ _ _)
        (dpos_mul (dpos_sub (by decide) hdx) hdy))
      (dpos_mul (dpos_samplePixel_gray _ _ _ _) (dpos_mul hdx hdy)))

theorem dpos_super_gray (img : ImageData) {x y : Frac} (hx : 0 < x.d)
    (hy : 0 < y.d) : 0 < (sampleSupersampled img x y).gray.d := by
  have h720 : 0 < (⟨7, 20⟩ : Frac).d := by decide
  have t1 := dpos_bilinear_gray img hx hy
  have t2 := dpos_bilinear_gray img (dpos_sub hx h720) (dpos_sub hy h720)
  have t3 := dpos_bilinear_gray img (dpos_add hx h720) (dpos_sub hy h720)
  have t4 := dpos_bilinear_gray img (dpos_sub hx h720) (dpos_add hy h720)
  have t5 := dpos_bilinear_gray img (dpos_add hx h720) (dpos_add hy h720)
  exact dpos_div (dpos_add (dpos_add (dpos_add (dpos_add t1 t2) t3) t4) t5) (by decide)

theorem radialCell_mono (img : ImageData) (t1 t2 : Frac) (cols rows : Nat)
    (cosQ sinQ : Frac → Frac) (row col : Nat)
    (h1 : 0 < t1.d) (h2 : 0 < t2.d) (hle : Frac.le t1 t2)
    (hq : ∀ q, 0 < (cosQ q).d) (hsn : ∀ q, 0 < (sinQ q).d)
    (h : radialCell img t1 cols rows cosQ sinQ row col = true) :
    radialCell img t2 cols rows cosQ sinQ row col = true := by
  have key : ∀ s : Sample, 0 < s.gray.d →
      (decide (Frac.le ⟨128, 1⟩ s.alpha) && decide (Frac.lt s.gray t1)) = true →
      (decide (Frac.le ⟨128, 1⟩ s.alpha) && decide (Frac.lt s.gray t2)) = true := by
    intro s hsd hb
    rw [Bool.and_eq_true] at hb ⊢
    refine ⟨hb.1, ?_⟩
    exact decide_eq_true (Frac.lt_le_trans hsd h1 h2 (of_decide_eq_true hb.2) hle)
  refine key _ ?_ h
  refine dpos_super_gray img ?_ ?_
  · exact dpos_add (dpos_div Nat.one_pos (by decide))
      (dpos_mul (hq _) (dpos_div
        (dpos_mul (dpos_fmin (dpos_div Nat.one_pos (by decide))
          (dpos_div Nat.one_pos (by decide))) Nat.one_pos)
        (by simp [Frac.ofNat]; omega)))
  · exact dpos_add (dpos_div Nat.one_pos (by decide))
      (dpos_mul (hsn _) (dpos_div
        (dpos_mul (dpos_fmin (dpos_div Nat.one_pos (by decide))
          (dpos_div Nat.one_pos (by decide))) Nat.one_pos)
        (by simp [Frac.ofNat]; omega)))

/-- The number of `true` (cutout) cells of a mask grid. -/
def maskCount (m : List (List Bool)) : Nat := (m.map (fun row => row.count true)).sum

theorem count_true_le {α : Type} (f g : α → Bool) (h : ∀ x, f x = true → g x = true) :
    ∀ l : List α, (l.map f).count true ≤ (l.map g).count true := by
  intro l
  induction l with
  | nil => simp
  | cons a l ih =>
    simp only [List.map_cons, List.count_cons]
    cases hga : g a <;> cases hfa : f a
    · simp
      omega
    · exact absurd (h a hfa) (by simp [hga])
    · simp
      omega
    · simp
      omega

theorem maskCount_mono (rows cols : Nat) (f g : Nat → Nat → Bool)
    (h : ∀ r c, f r c = true → g r c = true) :
    maskCount ((List.range rows).map (fun r => (List.range cols).map (f r))) ≤
      maskCount ((List.range rows).map (fun r => (List.range cols).map (g r))) := by
  unfold maskCount
  rw [List.map_map, List.map_map]
  apply List.sum_le_sum
  intro r hr
  simp only [Function.comp]
  exact count_true_le (f r) (g r) (h r) (List.range cols)

theorem buildRadialMask_ok {img : ImageData} {t : Frac} {cols rows : Nat}
    {cosQ sinQ : Frac → Frac} {m : List (List Bool)}
    (h : buildRadialMask img t cols rows cosQ sinQ = .ok m) :
    m = (List.range rows).map (fun row => (List.range cols).map (fun col =>
      radialCell img t cols rows cosQ sinQ row col)) := by
  unfold buildRadialMask at h
  split at h
  · exact absurd h (by simp)
  · injection h with h2
    exact h2.symm

theorem getD_map_range {β : Type} (f : Nat → β) (d : β) (n r : Nat) (hr : r < n) :
    ((List.range n).map f).getD r d = f r := by
  rw [List.getD_eq_getElem?_getD, List.getElem?_map, List.getElem?_range hr]
  rfl

/-- C6: raising the threshold only adds cutout (dark) cells: every cell of
the radial mask marked at threshold `t1` is still marked at any `t2 ≥ t1`
(the sampled gray value of a cell does not depend on the threshold), and
hence the marked-cell count never decreases. -/
theorem claim_C6 (img : ImageData) (t1 t2 : Frac) (cols rows : Nat)
    (cosQ sinQ : Frac → Frac) (m1 m2 : List (List Bool))
    (h1 : 0 < t1.d) (h2 : 0 < t2.d) (hle : Frac.le t1 t2)
    (hq : ∀ q, 0 < (cosQ q).d) (hsn : ∀ q, 0 < (sinQ q).d)
    (e1 : buildRadialMask img t1 cols rows cosQ sinQ = .ok m1)
    (e2 : buildRadialMask img t2 cols rows cosQ sinQ = .ok m2) :
    (∀ r c, (m1.getD r []).getD c false = true → (m2.getD r []).getD c false = true) ∧
    maskCount m1 ≤ maskCount m2 := by
  rw [buildRadialMask_ok e1, buildRadialMask_ok e2]
  constructor
  · intro r c hcell
    by_cases hr : r < rows
    · by_cases hc : c < cols
      · rw [getD_map_range _ _ _ _ hr, getD_map_range _ _ _ _ hc] at hcell ⊢
        exact radialCell_mono img t1 t2 cols rows cosQ sinQ r c h1 h2 hle hq hsn hcell
      · rw [getD_map_range _ _ _ _ hr] at hcell
        rw [List.getD_eq_default _ _ (by simpa using Nat.le_of_not_lt hc)] at hcell
        exact absurd hcell (by simp)
    · have houter : ((List.range rows).map (fun row => (List.range cols).map
          (fun col => radialCell img t1 cols rows cosQ sinQ row col))).getD r [] = [] :=
        List.getD_eq_default _ _ (by simpa using Nat.le_of_not_lt hr)
      rw [houter] at hcell
      exact absurd hcell (by simp)
  · exact maskCount_mono rows cols _ _ (fun r c =>
      radialCell_mono img t1 t2 cols rows cosQ sinQ r c h1 h2 hle hq hsn)

/-- The 2×2 radial grid of the mixed image at threshold `t`. -/
def gridMixed (t : Frac) : List (List Bool) :=
  (List.range 2).map (fun row => (List.range 2).map (fun col =>
    radialCell imgMixed t 2 2 czero czero row col))

/-- Witness for C6 at the mixed image, thresholds 100 ≤ 128, a 2×2 grid. -/
theorem claim_C6_witness :
    (∀ r c, ((gridMixed ⟨100, 1⟩).getD r []).getD c false = true →
      ((gridMixed ⟨128, 1⟩).getD r []).getD c false = true) ∧
    maskCount (gridMixed ⟨100, 1⟩) ≤ maskCount (gridMixed ⟨128, 1⟩) :=
  claim_C6 imgMixed ⟨100, 1⟩ ⟨128, 1⟩ 2 2 czero czero
    (gridMixed ⟨100, 1⟩) (gridMixed ⟨128, 1⟩)
    (by decide) (by decide) (by decide) (fun _ => Nat.one_pos) (fun _ => Nat.one_pos)
    (by unfold buildRadialMask; rw [if_neg (by decide)]; rfl)
    (by unfold buildRadialMask; rw [if_neg (by decide)]; rfl)

/-!
Wall-cell membership machinery for claims C1, C2 and C3: which triangles the
wall loop of the generator emits for one grid cell, and how they embed into
the full mesh.
-/

/-- The wall height at grid line `k` (top of row `k`, bottom of row `k-1`). -/
def wallZ (g : Geo) (k : Nat) : Frac :=
  Frac.sub g.wallTop (Frac.mul (Frac.div (Frac.ofNat k) (Frac.ofNat g.rows)) g.wallHeight)

theorem not_manifold_of_count {ts : List Tri} {e : Nat} (hmem : e ∈ edgeList ts)
    (hc : (edgeList ts).count e ≠ 2) : ¬ isManifold ts :=
  fun h => hc (h e hmem)

/-- Everything the wall loop emits for a solid cell `(row, col)` — its two
skin quads and the capping faces toward non-solid neighbors — is in
`wallTris`. -/
theorem wallTris_sub (g : Geo) (cutout : CutoutMask) (col row : Nat)
    (hcol : col < g.columns) (hrow : row < g.rows)
    (hsolid : isSolid g cutout row col = true) :
    ∀ t ∈ (wallCellSkin g row col ++
      (if !isSolid g cutout row ((col + g.columns - 1) % g.columns) then
        addRadialFace g col (wallZ g (row + 1)) (wallZ g row) true else []) ++
      (if !isSolid g cutout row ((col + 1) % g.columns) then
        addRadialFace g (col + 1) (wallZ g (row + 1)) (wallZ g row) false else []) ++
      (if row > 0 && !isSolid g cutout (row - 1) col then
        addHorizontalFace g (wallZ g row) col (col + 1) false else []) ++
      (if row < g.rows - 1 && !isSolid g cutout (row + 1) col then
        addHorizontalFace g (wallZ g (row + 1)) col (col + 1) true else [])),
      t ∈ wallTris g cutout := by
  intro t ht
  unfold wallTris
  apply List.mem_flatMap.mpr
  refine ⟨col, List.mem_range.mpr hcol, ?_⟩
  apply List.mem_flatMap.mpr
  refine ⟨row, List.mem_range.mpr hrow, ?_⟩
  rw [if_neg (by simp [hsolid])]
  exact ht

/-- Wall triangles are in the full mesh. -/
theorem mem_wall_mesh {cutout : CutoutMask} {params : GeometryParams} {t : Tri}
    (h : t ∈ wallTris (mkGeo cutout params) cutout) :
    t ∈ generateGeometryList cutout params := by
  unfold generateGeometryList
  exact List.mem_append_left _ (List.mem_append_left _ (List.mem_append_left _
    (List.mem_append_left _ (List.mem_append_right _ h))))

/-- C1 (amended): the 2-manifold invariant is not universal (see the
counterexample), but it holds for the worked scenario of the specification
(§8: 60/20/1.6/25/38/16/8 on an all-solid 3×3 mask): every edge of that mesh
is referenced by exactly two triangle sides, and the mesh passes the
vertex-separation check, so distinct symbolic vertex keys denote distinct
real points and the symbolic edge-count histogram is the one the 1e-5
quantizing inspection tool computes. -/
theorem claim_C1 :
    manifoldCheck (generateGeometryList scMaskFull scParams) = true ∧
    isManifold (generateGeometryList scMaskFull scParams) ∧
    meshSep 3 (generateGeometryList scMaskFull scParams) = true := by
  have h : manifoldCheck (generateGeometryList scMaskFull scParams) = true := by decide
  exact ⟨h, manifoldCheck_sound h, by decide⟩

/-- Counterexample for C1: the degenerate-lip cylinder configuration passes
parameter validation and has a ≥3×3 mask, yet its mesh is NOT 2-manifold:
the lip edge between angle indices 0 and 1 at radius 10, height 55 is
referenced by 6 triangle sides (the lip annulus collapses onto the pocket
wall because `openingRadius = innerHoleRadius` there). -/
theorem claim_C1_counterexample :
    validateGeometryParams cylParams = .ok () ∧
    3 ≤ cylMaskFull.rows ∧ 3 ≤ cylMaskFull.columns ∧
    ¬ isManifold (generateGeometryList cylMaskFull cylParams) := by
  refine ⟨rfl, by decide, by decide,
    not_manifold_of_count (e := edgeCode lipA lipB) (by decide) ?_⟩
  have h0 : scount (edgeCode lipA lipB) 0
      (edgeList (generateGeometryList cylMaskFull cylParams)) = 6 := by decide
  have h1 := scount_eq (edgeCode lipA lipB) 0
    (edgeList (generateGeometryList cylMaskFull cylParams))
  omega

/-- C2 (amended): around a non-solid interior cell `(hr, hc)` whose four
neighbors are solid, the wall loop emits all four capping quads — the
radial caps at the two column boundaries (from the solid left and right
neighbor cells) and the horizontal caps at the two row boundaries (from the
solid cells above and below) — and they are in the generated mesh.  The
manifoldness part of the claim is not universal (see the counterexample),
but holds for the single-hole 3×3 scenario at the worked parameters, with the
vertex-separation check passing. -/
theorem claim_C2 (cutout : CutoutMask) (params : GeometryParams) (g : Geo)
    (hg : g = mkGeo cutout params) (hr hc lc rc : Nat)
    (hcb : hc < g.columns) (hlcb : lc < g.columns) (hrcb : rc < g.columns)
    (hr0 : 0 < hr) (hrtop : hr < g.rows - 1)
    (hlc : (lc + 1) % g.columns = hc)
    (hrc : (rc + g.columns - 1) % g.columns = hc)
    (hhole : isSolid g cutout hr hc = false)
    (hsl : isSolid g cutout hr lc = true)
    (hsr : isSolid g cutout hr rc = true)
    (hsu : isSolid g cutout (hr - 1) hc = true)
    (hsd : isSolid g cutout (hr + 1) hc = true) :
    (∀ t ∈ addRadialFace g (lc + 1) (wallZ g (hr + 1)) (wallZ g hr) false,
      t ∈ generateGeometryList cutout params) ∧
    (∀ t ∈ addRadialFace g rc (wallZ g (hr + 1)) (wallZ g hr) true,
      t ∈ generateGeometryList cutout params) ∧
    (∀ t ∈ addHorizontalFace g (wallZ g hr) hc (hc + 1) true,
      t ∈ generateGeometryList cutout params) ∧
    (∀ t ∈ addHorizontalFace g (wallZ g (hr + 1)) hc (hc + 1) false,
      t ∈ generateGeometryList cutout params) ∧
    manifoldCheck (generateGeometryList scMaskHole scParams) = true ∧
    meshSep 3 (generateGeometryList scMaskHole scParams) = true := by
  have hrows : hr < g.rows := by omega
  have hrowlb : hr - 1 < g.rows := by omega
  have hrowub : hr + 1 < g.rows := by omega
  refine ⟨?_, ?_, ?_, ?_, by decide, by decide⟩
  · intro t ht
    subst hg
    apply mem_wall_mesh
    apply wallTris_sub _ cutout lc hr hlcb hrows hsl
    refine List.mem_append_left _ (List.mem_append_left _ (List.mem_append_right _ ?_))
    rw [hlc, hhole]
    exact ht
  · intro t ht
    subst hg
    apply mem_wall_mesh
    apply wallTris_sub _ cutout rc hr hrcb hrows hsr
    refine List.mem_append_left _ (List.mem_append_left _ (List.mem_append_left _
      (List.mem_append_right _ ?_)))
    rw [hrc, hhole]
    exact ht
  · intro t ht
    subst hg
    apply mem_wall_mesh
    apply wallTris_sub _ cutout hc (hr - 1) hcb hrowlb hsu
    refine List.mem_append_right _ ?_
    have hh : hr - 1 + 1 = hr := by omega
    rw [hh, hhole]
    rw [if_pos (by simp; omega)]
    exact ht
  · intro t ht
    subst hg
    apply mem_wall_mesh
    apply wallTris_sub _ cutout hc (hr + 1) hcb hrowub hsd
    refine List.mem_append_left _ (List.mem_append_right _ ?_)
    have hh : hr + 1 - 1 = hr := rfl
    rw [hh, hhole]
    rw [if_pos (by simp)]
    exact ht

/-- Counterexample for C2: in the degenerate-lip cylinder configuration with
a single interior hole at cell (1,0) — all four neighbors solid, the column
not pillar-forced — the mesh still fails the manifoldness check: the
collapsed lip edge is referenced 6 times. -/
theorem claim_C2_counterexample :
    isSolid (mkGeo cylMaskHole cylParams) cylMaskHole 1 0 = false ∧
    isSolid (mkGeo cylMaskHole cylParams) cylMaskHole 0 0 = true ∧
    isSolid (mkGeo cylMaskHole cylParams) cylMaskHole 2 0 = true ∧
    isSolid (mkGeo cylMaskHole cylParams) cylMaskHole 1 1 = true ∧
    isSolid (mkGeo cylMaskHole cylParams) cylMaskHole 1 3 = true ∧
    (mkGeo cylMaskHole cylParams).pillarColumns.getD 0 false = false ∧
    ¬ isManifold (generateGeometryList cylMaskHole cylParams) := by
  refine ⟨by decide, by decide, by decide, by decide, by decide, by decide,
    not_manifold_of_count (e := edgeCode lipA lipB) (by decide) ?_⟩
  have h0 : scount (edgeCode lipA lipB) 0
      (edgeList (generateGeometryList cylMaskHole cylParams)) = 6 := by decide
  have h1 := scount_eq (edgeCode lipA lipB) 0
    (edgeList (generateGeometryList cylMaskHole cylParams))
  omega

/-- Witness for C2 at the worked single-hole scenario: hole at (1,0), left
neighbor column 2 (wrapping), right neighbor column 1. -/
theorem claim_C2_witness :
    (∀ t ∈ addRadialFace (mkGeo scMaskHole scParams) 3
        (wallZ (mkGeo scMaskHole scParams) 2) (wallZ (mkGeo scMaskHole scParams) 1) false,
      t ∈ generateGeometryList scMaskHole scParams) ∧
    (∀ t ∈ addRadialFace (mkGeo scMaskHole scParams) 1
        (wallZ (mkGeo scMaskHole scParams) 2) (wallZ (mkGeo scMaskHole scParams) 1) true,
      t ∈ generateGeometryList scMaskHole scParams) ∧
    (∀ t ∈ addHorizontalFace (mkGeo scMaskHole scParams)
        (wallZ (mkGeo scMaskHole scParams) 1) 0 1 true,
      t ∈ generateGeometryList scMaskHole scParams) ∧
    (∀ t ∈ addHorizontalFace (mkGeo scMaskHole scParams)
        (wallZ (mkGeo scMaskHole scParams) 2) 0 1 false,
      t ∈ generateGeometryList scMaskHole scParams) ∧
    manifoldCheck (generateGeometryList scMaskHole scParams) = true ∧
    meshSep 3 (generateGeometryList scMaskHole scParams) = true :=
  claim_C2 scMaskHole scParams (mkGeo scMaskHole scParams) rfl 1 0 2 1
    (by decide) (by decide) (by decide) (by decide) (by decide) (by decide) (by decide)
    (by decide) (by decide) (by decide) (by decide) (by decide)

/-- Modelled from the claim's words for C3 (a spec-reading definition, to be
compared with the source `mkGeo`/`isSolid`): a column is a pillar column when
its center angle lies within half the pillar width of the nearest pillar
center, with width = max(minimum printable width, a quarter of the per-pillar
arc) and NO epsilon tolerance and no clamping of the width to the full pillar
step. -/
def specPillarColumns (cutout : CutoutMask) (params : GeometryParams) : List Bool :=
  let outerRadius := Frac.div params.domeDiameter ⟨2, 1⟩
  let wallThickness := params.wallThickness
  let innerRadius := Frac.sub outerRadius wallThickness
  let columns := cutout.columns
  let angleStep := Frac.div (Frac.mul ⟨2, 1⟩ piF) (Frac.ofNat columns)
  let pillarCount := (max 3 (Frac.round params.pillarCount)).toNat
  let pillarStep := Frac.div (Frac.mul ⟨2, 1⟩ piF) (Frac.ofNat pillarCount)
  let minPillarWidth := Frac.div wallThickness innerRadius
  let targetPillarWidth := Frac.mul pillarStep ⟨1, 4⟩
  let pillarWidth := Frac.fmax targetPillarWidth minPillarWidth
  let pillarHalf := Frac.div pillarWidth ⟨2, 1⟩
  (List.range columns).map (fun col =>
    let angle := Frac.mul (Frac.add (Frac.ofNat col) ⟨1, 2⟩) angleStep
    let normalized := Frac.jsMod (Frac.add angle (Frac.mul ⟨2, 1⟩ piF))
      (Frac.mul ⟨2, 1⟩ piF)
    let pillarIndex := (Frac.round (Frac.div normalized pillarStep)).toNat % pillarCount
    let center := Frac.mul (Frac.ofNat pillarIndex) pillarStep
    let delta := Frac.abs (Frac.sub normalized center)
    let wrapped := Frac.fmin delta (Frac.sub (Frac.mul ⟨2, 1⟩ piF) delta)
    decide (Frac.le wrapped pillarHalf))

/-- Modelled from the claim's words for C3: forced solid on the bottom or
top grid row or on a pillar column, otherwise equal to the mask's per-cell
boolean read as "material present". -/
def specClaimSolid (cutout : CutoutMask) (params : GeometryParams)
    (row col : Nat) : Bool :=
  decide (row = 0) || decide (row = cutout.rows - 1) ||
    (specPillarColumns cutout params).getD col false ||
    (cutout.data.getD row []).getD col false

/-- C3 (amended): a solid cell's two skin quads are emitted into the mesh
(universally); the solidity rule is the source one — forced on the bottom
and top rows and on the epsilon-tolerant pillar columns, otherwise the
NEGATION of the mask's per-cell boolean (the mask marks cutouts, not
material); and on the single-hole cylinder fixture the emission is exactly
an "iff": a cell's skin quads are in the mesh precisely when the cell is
solid. -/
theorem claim_C3 (g : Geo) (cutout : CutoutMask) (params : GeometryParams)
    (hg : g = mkGeo cutout params) (row col : Nat)
    (hrow : row < g.rows) (hcol : col < g.columns)
    (hsolid : isSolid g cutout row col = true) :
    isSolid g cutout row col =
      (decide (row = 0) || decide (row = g.rows - 1) || g.pillarColumns.getD col false ||
        !((cutout.data.getD row []).getD col false)) ∧
    (∀ t ∈ wallCellSkin g row col, t ∈ generateGeometryList cutout params) ∧
    ((List.range (mkGeo cylMaskHole cylParams).rows).all (fun r =>
      (List.range (mkGeo cylMaskHole cylParams).columns).all (fun c =>
        ((wallCellSkin (mkGeo cylMaskHole cylParams) r c).all (fun t =>
          decide (t ∈ generateGeometryList cylMaskHole cylParams))) ==
          isSolid (mkGeo cylMaskHole cylParams) cylMaskHole r c)) = true) := by
  refine ⟨rfl, ?_, by decide⟩
  intro t ht
  subst hg
  apply mem_wall_mesh
  apply wallTris_sub _ cutout col row hcol hrow hsolid
  exact List.mem_append_left _ (List.mem_append_left _ (List.mem_append_left _
    (List.mem_append_left _ ht)))

/-- Counterexample for C3: cell (1,0) of the single-hole cylinder fixture is
solid under the claim's reading of the mask ("material present" boolean,
true there), yet the source treats the mask as cutouts: `isSolid` is false
and the cell's skin quads are NOT in the mesh. -/
theorem claim_C3_counterexample :
    specClaimSolid cylMaskHole cylParams 1 0 = true ∧
    isSolid (mkGeo cylMaskHole cylParams) cylMaskHole 1 0 = false ∧
    (∀ t ∈ wallCellSkin (mkGeo cylMaskHole cylParams) 1 0,
      t ∉ generateGeometryList cylMaskHole cylParams) :=
  ⟨by decide, by decide, by decide⟩

/-- Witness for C3 at the forced bottom row of the cylinder fixture: all
four skin triangles of cell (0,0) are in the mesh. -/
theorem claim_C3_witness :
    ((wallCellSkin (mkGeo cylMaskHole cylParams) 0 0).all (fun t =>
      decide (t ∈ generateGeometryList cylMaskHole cylParams))) = true := by
  have h := (claim_C3 (mkGeo cylMaskHole cylParams) cylMaskHole cylParams rfl 0 0
    (by decide) (by decide) (by decide)).2.1
  rw [List.all_eq_true]
  intro t ht
  exact decide_eq_true (h t ht)

/-- Witness for C10 at concrete inputs (trivial scalars, the cylinder
fixture, binary format). -/
theorem claim_C10_witness :
    exportSTL unitOps unitEnc (fun _ => unitTri) (fun _ => "0") cylMaskFull cylParams
        StlFormat.binary
      = exportSTL unitOps unitEnc (fun _ => unitTri) (fun _ => "0") cylMaskFull cylParams
        StlFormat.binary :=
  claim_C10 unitOps unitEnc (fun _ => unitTri) (fun _ => "0") cylMaskFull cylMaskFull
    cylParams cylParams StlFormat.binary StlFormat.binary rfl rfl rfl

end Shade
